import Mathlib

/-!
# UDP timestamp capture and scheduled replay

A shallow embedding of `experiments/04/udp_txtime_replay.c` and
`experiments/04/udp_rx_timestamp.c`, followed by theorems about the trace
loader, the replay loop and the receive loop.

Conventions.
* `uint64_t` and `size_t` values are natural numbers; every operation that can
  wrap in C is reduced modulo `2 ^ 64` explicitly.
* The operating system is an explicit input: what `pcap_next_ex`, `socket`,
  `clock_gettime`, `recvmsg`, ... return is part of an environment value, and
  what the program does to the outside world is returned as a list of effects.
* `malloc` and `realloc` are taken to succeed; the growable packet array is a
  list.
* `double` is IEEE 754 binary64 with round-to-nearest-even, every operation
  rounded on its own.
-/

/-! ## Machine arithmetic -/

/-- Modulus of `uint64_t` and `size_t` arithmetic. -/
def U64_MOD : Nat := 2 ^ 64

/-- Conversion of an integer to `uint64_t`, as done by the cast `(uint64_t)x`. -/
def to_u64 (x : Int) : Nat := (x % (2 ^ 64 : Int)).toNat

/-- Conversion of an unsigned 64-bit value to a signed 64-bit one, as done by
the casts `(time_t)x` and `(long)x`. -/
def to_i64 (n : Nat) : Int :=
  if n % 2 ^ 64 < 2 ^ 63 then ((n % 2 ^ 64 : Nat) : Int) else ((n % 2 ^ 64 : Nat) : Int) - 2 ^ 64

/-- The C type `struct timespec`. -/
structure timespec where
  tv_sec : Int
  tv_nsec : Int
deriving DecidableEq

/-- The C type `struct timeval`. -/
structure timeval where
  tv_sec : Int
  tv_usec : Int
deriving DecidableEq

/-! ## binary64 arithmetic

A finite `double` is kept as a pair `(m, e)` standing for `m * 2 ^ e`.  Results
are rounded to 53 significant bits, ties to even.  The exponent range is not
bounded: every value the loader computes from two 64-bit integers is either
zero or has magnitude between `2 ^ (-72)` and `2 ^ 95`, inside the normal range
of binary64, so neither overflow nor gradual underflow can occur. -/

/-- Number of binary digits of `n`, by repeated halving (`fuel` bounds the
number of halvings). -/
def bitlenAux : Nat → Nat → Nat
  | 0, _ => 0
  | fuel + 1, n => if n = 0 then 0 else bitlenAux fuel (n / 2) + 1

/-- Number of binary digits of `n` (0 for 0). -/
def bitlen (n : Nat) : Nat := bitlenAux n n

/-- A finite binary64 value `m * 2 ^ e`. -/
structure F64 where
  m : Int
  e : Int
deriving DecidableEq

namespace F64

/-- Round `m * 2 ^ e` to 53 significant bits, ties to even. -/
def round (m e : Int) : F64 :=
  let n := m.natAbs
  let b := bitlen n
  if b ≤ 53 then ⟨m, e⟩
  else
    let s := b - 53
    let q := n / 2 ^ s
    let r := n % 2 ^ s
    let half := 2 ^ (s - 1)
    let q1 := if half < r ∨ (r = half ∧ q % 2 = 1) then q + 1 else q
    ⟨m.sign * (q1 : Int), e + (s : Int)⟩

/-- Conversion `long -> double`. -/
def of_int (x : Int) : F64 := round x 0

/-- Product of two doubles. -/
def mul (a b : F64) : F64 := round (a.m * b.m) (a.e + b.e)

/-- The exact sum `a + b`, on the common exponent `min a.e b.e`. -/
def addExact (a b : F64) : F64 :=
  let e := min a.e b.e
  ⟨a.m * 2 ^ (a.e - e).toNat + b.m * 2 ^ (b.e - e).toNat, e⟩

/-- Sum of two doubles. -/
def add (a b : F64) : F64 := round (addExact a b).m (addExact a b).e

/-- Negation. -/
def neg (a : F64) : F64 := ⟨-a.m, a.e⟩

/-- Difference of two doubles. -/
def sub (a b : F64) : F64 := add a (neg b)

/-- The comparison `a < 0`. -/
def ltZero (a : F64) : Bool := decide (a.m < 0)

/-- The double `0.0`. -/
def zero : F64 := ⟨0, 0⟩

/-- The constant `-1.0`. -/
def negOne : F64 := ⟨-1, 0⟩

/-- The constant `1e-6`: the double nearest to `10 ^ (-6)` is
`4722366482869645 * 2 ^ (-72)` (hex `0x1.0c6f7a0b5ed8dp-20`). -/
def c1eM6 : F64 := ⟨4722366482869645, -72⟩

/-- The constant `1e9`, exactly representable. -/
def c1e9 : F64 := ⟨1000000000, 0⟩

/-- Integer part of a double that is not negative (0 for a negative one). -/
def int_part (x : F64) : Nat :=
  if 0 ≤ x.e then x.m.toNat * 2 ^ x.e.toNat else x.m.toNat / 2 ^ (-x.e).toNat

/-- A condition under which the cast `(uint64_t)x` is defined in C: `x` is not
negative and its integer part fits in 64 bits. -/
def cast_defined (x : F64) : Prop := 0 ≤ x.m ∧ int_part x < 2 ^ 64

instance (x : F64) : Decidable (cast_defined x) := by
  unfold cast_defined; infer_instance

/-- The cast `(uint64_t)x`: the integer part where the cast is defined.  Where
it is not (integer part of 2^64 or more, or a negative `x`) the behaviour of
the C program is undefined; 0 stands in for it here, and every statement about
the value of an offset is restricted to where the cast is defined. -/
def to_u64 (x : F64) : Nat := if cast_defined x then int_part x else 0

/-- The rational number a binary64 value stands for. -/
def val (x : F64) : ℚ := (x.m : ℚ) * (2 : ℚ) ^ x.e

end F64

/-! ## `udp_txtime_replay.c`: the trace loader -/

namespace UdpTxtimeReplay

/-- The value of `sizeof(struct ether_header)`. -/
def sizeof_ether_header : Nat := 14

/-- The value of `sizeof(struct iphdr)`. -/
def sizeof_iphdr : Nat := 20

/-- The value of `sizeof(struct udphdr)`. -/
def sizeof_udphdr : Nat := 8

/-- The constant `ETHERTYPE_IP`. -/
def ETHERTYPE_IP : Nat := 0x0800

/-- The constant `IPPROTO_UDP`. -/
def IPPROTO_UDP : Nat := 17

/-- One captured frame as `pcap_next_ex` hands it back: the capture timestamp
`hdr->ts` and the `hdr->caplen` captured bytes at `data`. -/
structure Frame where
  ts : timeval
  data : List (Fin 256)
deriving DecidableEq

/-- The field `hdr->caplen`: the number of bytes available at `data`. -/
def Frame.caplen (f : Frame) : Nat := f.data.length

/-- What the loader does to memory while it handles one frame. -/
inductive Access where
  /-- the byte at index `i` of the frame buffer is read -/
  | load (i : Nat)
  /-- the `size_t` subtraction `a - b` is evaluated -/
  | usub (a b : Nat)
deriving DecidableEq

/-- A computation inside the body of the frame loop: the accesses made so far
and either a value or `none` once a `continue` has been taken. -/
structure Logged (α : Type) where
  log : List Access
  val : Option α

/-- Sequencing: the second part runs only if the first did not `continue`. -/
def Logged.bind {α β : Type} (x : Logged α) (f : α → Logged β) : Logged β :=
  match x.val with
  | none => ⟨x.log, none⟩
  | some a => ⟨x.log ++ (f a).log, (f a).val⟩

instance : Monad Logged where
  pure a := ⟨[], some a⟩
  bind := Logged.bind

/-- The statement `if (c) continue;`. -/
def continue_if (c : Bool) : Logged Unit := ⟨[], if c then none else some ()⟩

/-- Byte `i` of the frame buffer as a number (0 where the buffer has no byte
`i`; the loader never reads there, as every read is shown to lie below `caplen`). -/
def Frame.byte (f : Frame) (i : Nat) : Nat := (f.data.getD i 0).val

/-- Read of one byte of the frame buffer. -/
def load8 (f : Frame) (i : Nat) : Logged Nat := ⟨[Access.load i], some (f.byte i)⟩

/-- Read of a 16-bit field followed by `ntohs`. -/
def load16be (f : Frame) (i : Nat) : Logged Nat := do
  let hi ← load8 f i
  let lo ← load8 f (i + 1)
  pure (hi * 256 + lo)

/-- Subtraction in `size_t`. -/
def usub (a b : Nat) : Logged Nat := ⟨[Access.usub a b], some ((a + U64_MOD - b) % U64_MOD)⟩

/-- Where the payload of a frame lies: `payload = data + offset`, `payload_len` bytes. -/
structure Payload where
  offset : Nat
  payload_len : Nat
deriving DecidableEq

/-- Lines 215..249 of `main`: the header checks on one frame.  `none` is a
`continue`. -/
def parse_frame (f : Frame) : Logged Payload := do
  continue_if (f.caplen < sizeof_ether_header)
  let ether_type ← load16be f 12
  continue_if (ether_type != ETHERTYPE_IP)
  let offset := sizeof_ether_header
  continue_if (f.caplen < offset + sizeof_iphdr)
  let ihl ← (fun b => b % 16) <$> load8 f offset
  let ip_header_len := ihl * 4
  let version ← (fun b => b / 16) <$> load8 f offset
  continue_if (version != 4 || ip_header_len < sizeof_iphdr)
  let protocol ← load8 f (offset + 9)
  continue_if (protocol != IPPROTO_UDP)
  let offset := offset + ip_header_len
  continue_if (f.caplen < offset + sizeof_udphdr)
  let udp_len ← load16be f (offset + 4)
  continue_if (udp_len < sizeof_udphdr)
  let payload_len ← usub udp_len sizeof_udphdr
  let offset := offset + sizeof_udphdr
  continue_if (f.caplen < offset + payload_len)
  pure ⟨offset, payload_len⟩

/-- The C type `struct replay_packet`; `payload` is the owned copy. -/
structure replay_packet where
  rel_ns : Nat
  len : Nat
  payload : List (Fin 256)
deriving DecidableEq

/-- The function `append_packet`: nothing for `len == 0`, otherwise the `len`
bytes at `src.data + payload` are copied and a packet is appended.  Returns the
reads of the `memcpy` and the new array. -/
def append_packet (items : List replay_packet) (rel_ns : Nat) (src : Frame) (payload len : Nat) :
    List Access × List replay_packet :=
  if len = 0 then ([], items)
  else ((List.range len).map (fun j => Access.load (payload + j)),
        items ++ [⟨rel_ns, len, (src.data.drop payload).take len⟩])

/-- The loop-carried variables of the loader: the array `packets` (with
`count = packets.length`) and `first_ts`. -/
structure Loader where
  packets : List replay_packet
  first_ts : F64
deriving DecidableEq

/-- State before the first frame: no packets, `first_ts = -1.0`. -/
def Loader.init : Loader := ⟨[], F64.negOne⟩

/-- The expression `hdr->ts.tv_sec + hdr->ts.tv_usec * 1e-6`. -/
def abs_ts (ts : timeval) : F64 :=
  F64.add (F64.of_int ts.tv_sec) (F64.mul (F64.of_int ts.tv_usec) F64.c1eM6)

/-- Lines 255..258 and the product of line 259: `delta = abs_ts - first_ts`,
clamped at 0, times `1e9`; this is the double handed to the cast. -/
def scaled_delta (abs first : F64) : F64 :=
  let delta := F64.sub abs first
  let delta := if F64.ltZero delta then F64.zero else delta
  F64.mul delta F64.c1e9

/-- Line 259: `rel_ns = (uint64_t)(delta * 1e9)`. -/
def rel_ns_of (abs first : F64) : Nat := F64.to_u64 (scaled_delta abs first)

/-- One iteration of the frame loop for a frame returned with `ret == 1`:
the accesses it makes and the loader state after it. -/
def load_frame (st : Loader) (f : Frame) : List Access × Loader :=
  let p := parse_frame f
  match p.val with
  | none => (p.log, st)
  | some r =>
    let t := abs_ts f.ts
    let first_ts := if F64.ltZero st.first_ts then t else st.first_ts
    let out := append_packet st.packets (rel_ns_of t first_ts) f r.offset r.payload_len
    (p.log ++ out.1, ⟨out.2, first_ts⟩)

/-- One result of `pcap_next_ex`; the end of the list of results stands for
`PCAP_ERROR_BREAK`. -/
inductive pcap_next where
  /-- `ret == 0` -/
  | timeout
  /-- `ret == 1` with the frame -/
  | packet (f : Frame)
  /-- `ret == PCAP_ERROR` -/
  | error
deriving DecidableEq

/-- The `while (true)` loop of lines 201..261; `none` is the `return
EXIT_FAILURE` on `PCAP_ERROR`. -/
def load_loop : List pcap_next → Loader → Option Loader
  | [], st => some st
  | pcap_next.timeout :: rest, st => load_loop rest st
  | pcap_next.error :: _, _ => none
  | pcap_next.packet f :: rest, st => load_loop rest (load_frame st f).2

/-- The loader state after the frames `fs`, starting from `st`. -/
def run_frames (st : Loader) (fs : List Frame) : Loader :=
  fs.foldl (fun st f => (load_frame st f).2) st

/-- The loaded trace of a capture whose frames are `fs` (read to the end
without a read error). -/
def load_trace (fs : List Frame) : List replay_packet :=
  (run_frames Loader.init fs).packets

/-- The value `first_ts` has after a frame that passed the header checks
(lines 252..254). -/
def epoch_after (st : Loader) (f : Frame) : F64 :=
  if F64.ltZero st.first_ts then abs_ts f.ts else st.first_ts

/-! ### The header fields the loader looks at -/

/-- The field `ntohs(eth->ether_type)`: bytes 12 and 13. -/
def ether_type (f : Frame) : Nat := f.byte 12 * 256 + f.byte 13

/-- The bit-field `iph->version`: high half of byte 14. -/
def ip_version (f : Frame) : Nat := f.byte 14 / 16

/-- The bit-field `iph->ihl`: low half of byte 14. -/
def ip_ihl (f : Frame) : Nat := f.byte 14 % 16

/-- The field `iph->protocol`: byte 14 + 9. -/
def ip_protocol (f : Frame) : Nat := f.byte 23

/-- The field `ntohs(udph->len)`: bytes 4 and 5 after the IP header. -/
def udp_len (f : Frame) : Nat :=
  f.byte (14 + ip_ihl f * 4 + 4) * 256 + f.byte (14 + ip_ihl f * 4 + 5)

/-- The checks of lines 215..248 taken together: the first eight conditions
of the acceptance rule. -/
def headers_ok (f : Frame) : Prop :=
  14 ≤ f.caplen ∧ ether_type f = 0x0800 ∧ 14 + 20 ≤ f.caplen ∧
  (ip_version f = 4 ∧ 20 ≤ ip_ihl f * 4) ∧ ip_protocol f = 17 ∧
  14 + ip_ihl f * 4 + 8 ≤ f.caplen ∧ 8 ≤ udp_len f ∧
  14 + ip_ihl f * 4 + udp_len f ≤ f.caplen

instance (f : Frame) : Decidable (headers_ok f) := by
  unfold headers_ok; infer_instance

/-- The acceptance rule as the specification words it: the eight header
conditions and a non-empty payload. -/
def spec_accepts (f : Frame) : Prop :=
  headers_ok f ∧ 0 < udp_len f - 8

instance (f : Frame) : Decidable (spec_accepts f) := by
  unfold spec_accepts; infer_instance

/-- The packet the specification expects for an accepted frame, apart from its
offset: `len = udp_len - 8` and the `len` bytes from `14 + ihl*4 + 8` on. -/
def spec_len_payload (f : Frame) : Nat × List (Fin 256) :=
  (udp_len f - 8, (f.data.drop (14 + ip_ihl f * 4 + 8)).take (udp_len f - 8))

/-- Capture timestamp of a frame in nanoseconds, exactly. -/
def capture_timestamp_ns (ts : timeval) : Int :=
  ts.tv_sec * 1000000000 + ts.tv_usec * 1000

/-- The relative offsets as the specification words them: exact difference to
the first accepted frame, in nanoseconds, clamped at zero. -/
def spec_relative_offsets (fs : List Frame) : List Nat :=
  match fs.filter (fun f => decide (spec_accepts f)) with
  | [] => []
  | f0 :: rest =>
    (f0 :: rest).map (fun f => (capture_timestamp_ns f.ts - capture_timestamp_ns f0.ts).toNat)

/-- A capture timestamp as a number of seconds, exactly. -/
def exact_seconds (ts : timeval) : ℚ := (ts.tv_sec : ℚ) + (ts.tv_usec : ℚ) / 1000000

/-- A timestamp as a capture file with microsecond resolution holds it: 32-bit
seconds and microseconds below one million. -/
def timeval_in_range (ts : timeval) : Prop :=
  0 ≤ ts.tv_sec ∧ ts.tv_sec < 2 ^ 32 ∧ 0 ≤ ts.tv_usec ∧ ts.tv_usec < 1000000

instance (ts : timeval) : Decidable (timeval_in_range ts) := by
  unfold timeval_in_range; infer_instance

/-- The relative offsets with the arithmetic of the loader: binary64 difference to
the first accepted frame, clamped at zero, scaled and truncated. -/
def epoch_offsets (fs : List Frame) : List Nat :=
  match fs.filter (fun f => decide (spec_accepts f)) with
  | [] => []
  | f0 :: rest => (f0 :: rest).map (fun f => rel_ns_of (abs_ts f.ts) (abs_ts f0.ts))

/-- What is required of an access made for frame `f`: a read lies below
`caplen`; a read of the Ethernet type (bytes 12 and 13) happens only with 14
captured bytes; a read of an IP header byte (14 or 23) only with 34 captured
bytes; a read of the UDP length field only with the whole UDP header captured;
the only subtraction is `udp_len - 8` and it does not wrap. -/
def access_ok (f : Frame) : Access → Prop
  | Access.load i =>
      i < f.caplen ∧ ((i = 12 ∨ i = 13) → 14 ≤ f.caplen) ∧
      ((i = 14 ∨ i = 23) → 34 ≤ f.caplen) ∧
      ((i = 14 + ip_ihl f * 4 + 4 ∨ i = 14 + ip_ihl f * 4 + 5) →
        14 + ip_ihl f * 4 + 8 ≤ f.caplen)
  | Access.usub a b => b ≤ a ∧ a = udp_len f ∧ b = 8

/-! ### Clock helpers and the pacing primitive -/

/-- The function `timespec_to_ns`:
`(uint64_t)ts->tv_sec * 1000000000ull + (uint64_t)ts->tv_nsec`. -/
def timespec_to_ns (ts : timespec) : Nat :=
  (to_u64 ts.tv_sec * 1000000000 + to_u64 ts.tv_nsec) % U64_MOD

/-- The function `ns_to_timespec`. -/
def ns_to_timespec (ns : Nat) : timespec :=
  ⟨to_i64 (ns / 1000000000), to_i64 (ns % 1000000000)⟩

/-- Subtraction of two `uint64_t` values. -/
def sub_u64 (a b : Nat) : Nat := (a + U64_MOD - b) % U64_MOD

/-- What one pass through the body of the loop of `sleep_until` decides once
the clock has been read. -/
inductive SleepStep where
  /-- the `break`: the function returns -/
  | done
  /-- `clock_nanosleep(clk, 0, &req, NULL)` is called and the loop goes round -/
  | sleep (req : timespec)
deriving DecidableEq

/-- Lines 80..86 of `sleep_until`, after a successful clock read `now_ns`. -/
def sleep_until_step (now_ns target_ns guard_ns : Nat) : SleepStep :=
  if target_ns ≤ (now_ns + guard_ns) % U64_MOD then SleepStep.done
  else SleepStep.sleep (ns_to_timespec (sub_u64 (sub_u64 target_ns guard_ns) now_ns))

/-- What the replay engine does to the outside world. -/
inductive Effect where
  /-- call of `socket` -/
  | socket
  /-- call of `bind` -/
  | bind
  /-- call of `setsockopt(SO_TXTIME)` -/
  | setsockopt_txtime
  /-- call of `clock_nanosleep` with a relative request -/
  | clock_nanosleep (req : timespec)
  /-- call of `sendmsg` with the `SCM_TXTIME` value and the payload bytes -/
  | sendmsg (txtime : Nat) (payload : List (Fin 256))
  /-- call of `close` on the socket -/
  | close
deriving DecidableEq

/-- How a call of `sleep_until` ends. -/
inductive SleepResult where
  /-- it returned; `k` clock reads have been made so far in the run -/
  | returned (k : Nat)
  /-- `clock_gettime` failed: `exit(EXIT_FAILURE)` -/
  | exited
  /-- still looping when the fuel ran out -/
  | pending
deriving DecidableEq

/-- The function `sleep_until`.  `clock k` is the result of the `k`-th call of
`clock_gettime` in the run (`none`: the call fails); `fuel` bounds the number of
passes through the loop. -/
def sleep_until (clock : Nat → Option timespec) (target_ns guard_ns : Nat) :
    Nat → Nat → List Effect × SleepResult
  | 0, _ => ([], SleepResult.pending)
  | fuel + 1, k =>
    match clock k with
    | none => ([], SleepResult.exited)
    | some now =>
      match sleep_until_step (timespec_to_ns now) target_ns guard_ns with
      | SleepStep.done => ([], SleepResult.returned (k + 1))
      | SleepStep.sleep req =>
        let r := sleep_until clock target_ns guard_ns fuel (k + 1)
        (Effect.clock_nanosleep req :: r.1, r.2)

/-! ### The replay engine -/

/-- The part of `struct config` the engine computes with; paths, addresses,
ports and the clock identifier are only handed on to system calls. -/
structure config where
  lead_ns : Nat

/-- The operating system as the replay engine sees it. -/
structure Env where
  /-- `pcap_open_offline`: `none` if it fails, else what `pcap_next_ex` returns call after call -/
  pcap : Option (List pcap_next)
  /-- whether `socket` succeeds -/
  socket_ok : Bool
  /-- whether `inet_pton` accepts the bind address -/
  bind_ip_ok : Bool
  /-- whether `bind` succeeds -/
  bind_ok : Bool
  /-- whether `setsockopt(SO_TXTIME)` succeeds -/
  txtime_ok : Bool
  /-- whether `inet_pton` accepts the destination address -/
  dst_ip_ok : Bool
  /-- result of the `k`-th call of `clock_gettime` -/
  clock : Nat → Option timespec
  /-- whether the `i`-th call of `sendmsg` succeeds -/
  sendmsg_ok : Nat → Bool

/-- A run: the effects in order and the exit status (`none` while the run has
not ended within the fuel given). -/
structure Run where
  effects : List Effect
  status : Option Nat
deriving DecidableEq

/-- The constant `EXIT_FAILURE`. -/
def EXIT_FAILURE : Nat := 1

/-- The constant `EXIT_SUCCESS`. -/
def EXIT_SUCCESS : Nat := 0

/-- The value of `target_ns` line 335 computes for a packet. -/
def target_of (base_ns : Nat) (p : replay_packet) : Nat := (base_ns + p.rel_ns) % U64_MOD

/-- The `for` loop of lines 334..364 and the epilogue.  `k` counts the clock
reads made so far, `i` the calls of `sendmsg`. -/
def replay_loop (env : Env) (base_ns guard_ns fuel : Nat) : List replay_packet → Nat → Nat → Run
  | [], _, _ => ⟨[Effect.close], some EXIT_SUCCESS⟩
  | p :: ps, k, i =>
    let target_ns := target_of base_ns p
    match sleep_until env.clock target_ns guard_ns fuel k with
    | (es, SleepResult.pending) => ⟨es, none⟩
    | (es, SleepResult.exited) => ⟨es, some EXIT_FAILURE⟩
    | (es, SleepResult.returned k1) =>
      if env.sendmsg_ok i then
        let r := replay_loop env base_ns guard_ns fuel ps k1 (i + 1)
        ⟨es ++ Effect.sendmsg target_ns p.payload :: r.effects, r.status⟩
      else ⟨es ++ [Effect.sendmsg target_ns p.payload, Effect.close], some EXIT_FAILURE⟩

/-- Lines 317..368 of `main`: the base time is read once, then the loop runs. -/
def replay (env : Env) (cfg : config) (fuel : Nat) (packets : List replay_packet) : Run :=
  match env.clock 0 with
  | none => ⟨[Effect.close], some EXIT_FAILURE⟩
  | some now =>
    let base_ns := (timespec_to_ns now + cfg.lead_ns) % U64_MOD
    let guard_ns := cfg.lead_ns / 2
    replay_loop env base_ns guard_ns fuel packets 1 0

/-- Lines 270..315 of `main`: socket creation and configuration, then `replay`. -/
def open_and_replay (env : Env) (cfg : config) (fuel : Nat) (packets : List replay_packet) : Run :=
  if !env.socket_ok then ⟨[Effect.socket], some EXIT_FAILURE⟩
  else if !env.bind_ip_ok then ⟨[Effect.socket, Effect.close], some EXIT_FAILURE⟩
  else if !env.bind_ok then ⟨[Effect.socket, Effect.bind, Effect.close], some EXIT_FAILURE⟩
  else if !env.txtime_ok then
    ⟨[Effect.socket, Effect.bind, Effect.setsockopt_txtime, Effect.close], some EXIT_FAILURE⟩
  else if !env.dst_ip_ok then
    ⟨[Effect.socket, Effect.bind, Effect.setsockopt_txtime, Effect.close], some EXIT_FAILURE⟩
  else
    let r := replay env cfg fuel packets
    ⟨[Effect.socket, Effect.bind, Effect.setsockopt_txtime] ++ r.effects, r.status⟩

/-- The function `main` after `parse_args`. -/
def main (env : Env) (cfg : config) (fuel : Nat) : Run :=
  match env.pcap with
  | none => ⟨[], some EXIT_FAILURE⟩
  | some results =>
    match load_loop results Loader.init with
    | none => ⟨[], some EXIT_FAILURE⟩
    | some st =>
      if st.packets.length = 0 then ⟨[], some EXIT_FAILURE⟩
      else open_and_replay env cfg fuel st.packets

/-- The calls of `sendmsg` in a list of effects, in order: transmit time and payload. -/
def sends : List Effect → List (Nat × List (Fin 256))
  | [] => []
  | Effect.sendmsg t p :: es => (t, p) :: sends es
  | _ :: es => sends es

/-- The sends a trace calls for, given the base clock read `T0`. -/
def expected_sends (T0 lead_ns : Nat) (packets : List replay_packet) : List (Nat × List (Fin 256)) :=
  packets.map (fun p => ((T0 + lead_ns + p.rel_ns) % U64_MOD, p.payload))

/-- An environment in which the replay of `packets` can run to its end: no
clock read fails, no send fails, and for the target of each packet the clock
gets within the guard band sooner or later, whenever the wait starts. -/
def Env.cooperative (env : Env) (base_ns guard_ns : Nat) (packets : List replay_packet) : Prop :=
  (∀ k, env.clock k ≠ none) ∧ (∀ i, env.sendmsg_ok i = true) ∧
  ∀ p ∈ packets, ∀ k, ∃ j now, k ≤ j ∧ env.clock j = some now ∧
    sleep_until_step (timespec_to_ns now) (target_of base_ns p) guard_ns = SleepStep.done

/-- The frames among the results of `pcap_next_ex`, in order. -/
def frames_of : List pcap_next → List Frame
  | [] => []
  | pcap_next.packet f :: rest => f :: frames_of rest
  | _ :: rest => frames_of rest

/-- An environment for the examples: every call succeeds, the capture is
`frames`, and the clock reads 5 s at the first two reads and 6 s from then on. -/
def sample_env (frames : List Frame) : Env :=
  { pcap := some (frames.map pcap_next.packet)
    socket_ok := true
    bind_ip_ok := true
    bind_ok := true
    txtime_ok := true
    dst_ip_ok := true
    clock := fun k => some ⟨if k < 2 then 5 else 6, 0⟩
    sendmsg_ok := fun _ => true }

/-- A trace with offsets 0, 10 ms and 25 ms. -/
def sample_trace : List replay_packet :=
  [⟨0, 1, [1]⟩, ⟨10000000, 1, [2]⟩, ⟨25000000, 1, [3]⟩]

/-! ### Frames used as examples -/

/-- An Ethernet frame with a 20-byte IP header (`version = 4`, `ihl = 5`), the
given Ethernet type and IP protocol, and an 8-byte transport header whose
length field is `8 + payload.length`. -/
def sample_frame (ts : timeval) (ethertype protocol : Nat) (payload : List (Fin 256)) : Frame :=
  ⟨ts,
    List.replicate 12 0 ++ [Fin.ofNat (ethertype / 256), Fin.ofNat (ethertype % 256)] ++
    [0x45] ++ List.replicate 8 0 ++ [Fin.ofNat protocol] ++ List.replicate 10 0 ++
    List.replicate 4 0 ++
      [Fin.ofNat ((8 + payload.length) / 256), Fin.ofNat ((8 + payload.length) % 256)] ++ [0, 0] ++
    payload⟩

/-- A UDP-over-IPv4 frame. -/
def udp_frame (ts : timeval) (payload : List (Fin 256)) : Frame :=
  sample_frame ts 0x0800 17 payload

/-- The capture of the loader-filtering example: a non-IPv4 frame, UDP with
10 bytes at `t0`, UDP with 20 bytes at `t0 + 5 ms`, a TCP frame, UDP with 5
bytes at `t0 + 1 ms`; `t0` is 100 s. -/
def sample_capture : List Frame :=
  [ sample_frame ⟨100, 0⟩ 0x86DD 17 (List.replicate 10 1),
    udp_frame ⟨100, 0⟩ (List.replicate 10 2),
    udp_frame ⟨100, 5000⟩ (List.replicate 20 3),
    sample_frame ⟨100, 2000⟩ 0x0800 6 (List.replicate 10 4),
    udp_frame ⟨100, 1000⟩ (List.replicate 5 5) ]

/-- Three UDP frames at 0 s, 5 ms and 1 ms. -/
def early_capture : List Frame :=
  [ udp_frame ⟨0, 0⟩ [1], udp_frame ⟨0, 5000⟩ [2], udp_frame ⟨0, 1000⟩ [3] ]

/-- Two UDP frames 5 ms apart at a present-day capture time. -/
def late_capture : List Frame :=
  [ udp_frame ⟨1700000000, 0⟩ [1], udp_frame ⟨1700000000, 5000⟩ [2] ]

/-- A UDP frame with an empty payload at 0 s followed by a UDP frame with one
byte at 1 s. -/
def empty_first_capture : List Frame :=
  [ udp_frame ⟨0, 0⟩ [], udp_frame ⟨1, 0⟩ [7] ]

end UdpTxtimeReplay

/-! ## `udp_rx_timestamp.c`: the receive engine -/

namespace UdpRxTimestamp

/-- The constant `SOL_SOCKET` (Linux). -/
def SOL_SOCKET : Int := 1

/-- The constant `SO_TIMESTAMPING` (Linux, generic socket ABI). -/
def SO_TIMESTAMPING : Int := 37

/-- The value of `sizeof(stamp)` for `struct timespec stamp[3]` (LP64). -/
def sizeof_stamp : Nat := 48

/-- The macro `CMSG_LEN(len)`: the aligned size of `struct cmsghdr` (16 on
LP64 Linux) plus `len`. -/
def CMSG_LEN (len : Nat) : Nat := 16 + len

/-- The array `struct timespec stamp[3]`. -/
structure stamp3 where
  ts0 : timespec
  ts1 : timespec
  ts2 : timespec
deriving DecidableEq

/-- One ancillary message as `CMSG_FIRSTHDR` and `CMSG_NXTHDR` walk over them: the
three header fields, and the first `sizeof(stamp)` bytes at `CMSG_DATA(cm)`
viewed as three time values (looked at only when `cmsg_len` says they are there). -/
structure cmsghdr where
  cmsg_len : Nat
  cmsg_level : Int
  cmsg_type : Int
  data : stamp3
deriving DecidableEq

/-- The function `ts_to_ns`:
`(uint64_t)ts->tv_sec * 1000000000ull + (uint64_t)ts->tv_nsec`. -/
def ts_to_ns (ts : timespec) : Nat :=
  (to_u64 ts.tv_sec * 1000000000 + to_u64 ts.tv_nsec) % U64_MOD

/-- The `memset(stamp, 0, sizeof(stamp))` of line 138. -/
def stamp_zero : stamp3 := ⟨⟨0, 0⟩, ⟨0, 0⟩, ⟨0, 0⟩⟩

/-- The test of lines 141..143 on one ancillary message. -/
def is_timestamping (cm : cmsghdr) : Bool :=
  cm.cmsg_level == SOL_SOCKET && cm.cmsg_type == SO_TIMESTAMPING &&
    decide (CMSG_LEN sizeof_stamp ≤ cm.cmsg_len)

/-- The loop of lines 139..147: `stamp` after the scan, starting from `stamp`
all zero. -/
def scan_cmsgs : List cmsghdr → stamp3
  | [] => stamp_zero
  | cm :: rest => if is_timestamping cm then cm.data else scan_cmsgs rest

/-- One outcome of `recvmsg`. -/
inductive RecvOutcome where
  /-- `n >= 0` bytes were received, with the ancillary messages `control`;
  `mono_now` is what the `clock_gettime(CLOCK_MONOTONIC_RAW)` that follows reads -/
  | ok (n : Nat) (control : List cmsghdr) (mono_now : timespec)
  /-- `n < 0` with `errno == EINTR` -/
  | eintr
  /-- `n < 0` with any other `errno` -/
  | fail
deriving DecidableEq

/-- One data row of the CSV output. -/
structure Row where
  seq : Nat
  wire_len : Nat
  payload_len : Nat
  realtime_ns : Nat
  mono_ns : Nat
deriving DecidableEq

/-- What the receive engine does to the outside world. -/
inductive Effect where
  /-- call of `socket` -/
  | socket
  /-- call of `setsockopt(SO_TIMESTAMPING)` -/
  | setsockopt_timestamping
  /-- call of `setsockopt(SO_REUSEADDR)` -/
  | setsockopt_reuseaddr
  /-- call of `bind` -/
  | bind
  /-- the header line is printed -/
  | header
  /-- call of `recvmsg` -/
  | recvmsg
  /-- a data row is printed -/
  | row (r : Row)
  /-- call of `close` on the socket -/
  | close
deriving DecidableEq

/-- A run: the effects in order and the exit status (`none`: blocked in a
`recvmsg` for which the environment has no outcome). -/
structure Run where
  effects : List Effect
  status : Option Nat
deriving DecidableEq

/-- The constant `EXIT_FAILURE`. -/
def EXIT_FAILURE : Nat := 1

/-- The constant `EXIT_SUCCESS`. -/
def EXIT_SUCCESS : Nat := 0

/-- Lines 137..157: the row printed for a successful receive. -/
def make_row (seq n : Nat) (control : List cmsghdr) (mono_now : timespec) : Row :=
  let stamp := scan_cmsgs control
  let realtime_ns := ts_to_ns stamp.ts2
  let mono_ns := ts_to_ns mono_now
  let payload_len := n
  let wire_len := (payload_len + 42) % U64_MOD
  ⟨seq, wire_len, payload_len, realtime_ns, mono_ns⟩

/-- The `while` loop of lines 113..160 and the epilogue, over the outcomes of
the successive calls of `recvmsg`; the second argument is `seq`. -/
def recv_loop (max_samples : Nat) : List RecvOutcome → Nat → Run
  | [], seq =>
    if max_samples = 0 ∨ seq < max_samples then ⟨[Effect.recvmsg], none⟩
    else ⟨[Effect.close], some EXIT_SUCCESS⟩
  | o :: rest, seq =>
    if max_samples = 0 ∨ seq < max_samples then
      match o with
      | RecvOutcome.eintr =>
        let r := recv_loop max_samples rest seq
        ⟨Effect.recvmsg :: r.effects, r.status⟩
      | RecvOutcome.fail => ⟨[Effect.recvmsg, Effect.close], some EXIT_FAILURE⟩
      | RecvOutcome.ok n control mono_now =>
        let r := recv_loop max_samples rest ((seq + 1) % U64_MOD)
        ⟨Effect.recvmsg :: Effect.row (make_row seq n control mono_now) :: r.effects, r.status⟩
    else ⟨[Effect.close], some EXIT_SUCCESS⟩

/-- The operating system as the receive engine sees it. -/
structure Env where
  /-- whether `socket` succeeds -/
  socket_ok : Bool
  /-- whether `setsockopt(SO_TIMESTAMPING)` succeeds -/
  timestamping_ok : Bool
  /-- whether `setsockopt(SO_REUSEADDR)` succeeds -/
  reuseaddr_ok : Bool
  /-- whether `inet_pton` accepts the bind address -/
  bind_ip_ok : Bool
  /-- whether `bind` succeeds -/
  bind_ok : Bool
  /-- the outcomes of the successive calls of `recvmsg` -/
  recv : List RecvOutcome

/-- The function `main` after `rx_parse_args`.  The result of
`setsockopt(SO_REUSEADDR)` (line 93) is not looked at. -/
def main (env : Env) (max_samples : Nat) : Run :=
  if !env.socket_ok then ⟨[Effect.socket], some EXIT_FAILURE⟩
  else if !env.timestamping_ok then
    ⟨[Effect.socket, Effect.setsockopt_timestamping, Effect.close], some EXIT_FAILURE⟩
  else if !env.bind_ip_ok then
    ⟨[Effect.socket, Effect.setsockopt_timestamping, Effect.setsockopt_reuseaddr, Effect.close],
      some EXIT_FAILURE⟩
  else if !env.bind_ok then
    ⟨[Effect.socket, Effect.setsockopt_timestamping, Effect.setsockopt_reuseaddr, Effect.bind,
      Effect.close], some EXIT_FAILURE⟩
  else
    let r := recv_loop max_samples env.recv 0
    ⟨[Effect.socket, Effect.setsockopt_timestamping, Effect.setsockopt_reuseaddr, Effect.bind,
      Effect.header] ++ r.effects, r.status⟩

/-- The data rows among a list of effects, in order. -/
def rows : List Effect → List Row
  | [] => []
  | Effect.row r :: es => r :: rows es
  | _ :: es => rows es

/-- Number of successful receives among the outcomes. -/
def successes : List RecvOutcome → Nat
  | [] => 0
  | RecvOutcome.ok _ _ _ :: rest => successes rest + 1
  | _ :: rest => successes rest

/-- Whether an effect belongs to the receive loop: the header, a receive or a row. -/
def in_receive_phase : Effect → Bool
  | Effect.header => true
  | Effect.recvmsg => true
  | Effect.row _ => true
  | _ => false

/-- An environment in which only `setsockopt(SO_REUSEADDR)` fails, and one
datagram of 10 bytes arrives without a timestamp. -/
def reuseaddr_fails : Env :=
  { socket_ok := true
    timestamping_ok := true
    reuseaddr_ok := false
    bind_ip_ok := true
    bind_ok := true
    recv := [RecvOutcome.ok 10 [] ⟨1, 0⟩] }

end UdpRxTimestamp

/-! # Theorems -/

/-! ## binary64 arithmetic -/

/-- The constant used for `1e-6` is the binary64 number nearest to `10 ^ (-6)`:
its mantissa has 53 bits and it is less than half a unit in the last place
away from `10 ^ (-6)`. -/
theorem c1eM6_nearest :
    2 ^ 52 ≤ F64.c1eM6.m ∧ F64.c1eM6.m < 2 ^ 53 ∧ F64.c1eM6.e = -72 ∧
    2 * |F64.c1eM6.m * 10 ^ 6 - 2 ^ 72| < 10 ^ 6 := by
  decide

theorem bitlen_zero : bitlen 0 = 0 := rfl

theorem f64_round_zero (e : Int) : F64.round 0 e = ⟨0, e⟩ := by
  simp [F64.round, bitlen_zero]

theorem f64_round_m_nonneg (m e : Int) (h : 0 ≤ m) : 0 ≤ (F64.round m e).m := by
  unfold F64.round
  simp only
  split
  · exact h
  · exact Int.mul_nonneg (Int.sign_nonneg.mpr h) (Int.ofNat_nonneg _)


theorem bitlenAux_zero (fuel : Nat) : bitlenAux fuel 0 = 0 := by
  cases fuel <;> simp [bitlenAux]

theorem bitlenAux_spec (fuel : Nat) :
    ∀ n, n ≤ fuel → n ≠ 0 → 2 ^ (bitlenAux fuel n - 1) ≤ n ∧ n < 2 ^ bitlenAux fuel n := by
  induction fuel with
  | zero => intro n h1 h2; omega
  | succ fuel ih =>
    intro n h1 h2
    rw [bitlenAux, if_neg h2]
    by_cases h : n / 2 = 0
    · rw [h, bitlenAux_zero]
      have : n = 1 := by omega
      subst this
      simp
    · obtain ⟨ha, hb⟩ := ih (n / 2) (by omega) h
      have hpos : 0 < bitlenAux fuel (n / 2) := by
        rcases Nat.eq_zero_or_pos (bitlenAux fuel (n / 2)) with h0 | h0
        · rw [h0] at hb; omega
        · exact h0
      obtain ⟨c, hc⟩ : ∃ c, bitlenAux fuel (n / 2) = c + 1 := ⟨_, (Nat.succ_pred_eq_of_pos hpos).symm⟩
      rw [hc] at ha hb ⊢
      simp only [Nat.add_sub_cancel] at ha ⊢
      rw [pow_succ] at hb ⊢
      rw [pow_succ]
      constructor <;> omega

theorem bitlen_spec (n : Nat) (h : n ≠ 0) : 2 ^ (bitlen n - 1) ≤ n ∧ n < 2 ^ bitlen n :=
  bitlenAux_spec n n (le_refl n) h

theorem bitlen_le_of_lt (n k : Nat) (h : n < 2 ^ k) : bitlen n ≤ k := by
  by_cases h0 : n = 0
  · subst h0; simp [bitlen_zero]
  · by_contra hc
    have h1 := (bitlen_spec n h0).1
    have h2 : 2 ^ k ≤ 2 ^ (bitlen n - 1) := Nat.pow_le_pow_right (by norm_num) (by omega)
    omega

theorem f64_round_exact (m e : Int) (h : m.natAbs < 2 ^ 53) : F64.round m e = ⟨m, e⟩ := by
  unfold F64.round
  simp only
  rw [if_pos (bitlen_le_of_lt _ _ h)]

/-- The quotient chosen by round-to-nearest-even is within half a unit. -/
theorem f64_nearest_quotient (n s : Nat) :
    ∃ q1 : Nat,
      (if 2 ^ s < n % 2 ^ (s + 1) ∨ (n % 2 ^ (s + 1) = 2 ^ s ∧ n / 2 ^ (s + 1) % 2 = 1)
        then n / 2 ^ (s + 1) + 1 else n / 2 ^ (s + 1)) = q1 ∧
      q1 * 2 ^ (s + 1) ≤ n + 2 ^ s ∧ n ≤ q1 * 2 ^ (s + 1) + 2 ^ s := by
  have hdm := Nat.div_add_mod n (2 ^ (s + 1))
  have hr := Nat.mod_lt n (show 0 < 2 ^ (s + 1) by positivity)
  have hpow : 2 ^ (s + 1) = 2 * 2 ^ s := by rw [pow_succ]; ring
  generalize n / 2 ^ (s + 1) = q at hdm ⊢
  generalize n % 2 ^ (s + 1) = r at hdm hr ⊢
  rw [hpow] at hdm hr ⊢
  generalize 2 ^ s = half at hdm hr ⊢
  split_ifs with hup
  · refine ⟨q + 1, rfl, ?_, ?_⟩
    · have : half ≤ r := by rcases hup with h | ⟨h, _⟩ <;> omega
      nlinarith
    · nlinarith
  · refine ⟨q, rfl, ?_, ?_⟩
    · nlinarith
    · have : r ≤ half := by
        by_contra hc
        exact hup (Or.inl (by omega))
      nlinarith

/-- Rounding a natural mantissa: the result is not negative and lies within
the relative distance `2 ^ (-53)` of the exact value. -/
theorem f64_round_nat_spec (n : Nat) (e : Int) :
    0 ≤ (F64.round (n : Int) e).m ∧
    |(F64.round (n : Int) e).val - (n : ℚ) * (2 : ℚ) ^ e| * 2 ^ 53 ≤ (n : ℚ) * (2 : ℚ) ^ e := by
  have h2e : (0 : ℚ) < (2 : ℚ) ^ e := zpow_pos (by norm_num) e
  unfold F64.round
  simp only [Int.natAbs_ofNat]
  by_cases hb : bitlen n ≤ 53
  · rw [if_pos hb]
    simp only [F64.val, Int.cast_natCast, sub_self, abs_zero, zero_mul]
    exact ⟨Int.ofNat_nonneg n, by positivity⟩
  · rw [if_neg hb]
    have hn0 : n ≠ 0 := by
      rintro rfl
      exact hb (by decide)
    have hspec := (bitlen_spec n hn0).1
    obtain ⟨s, hs⟩ : ∃ s, bitlen n = s + 1 + 53 := ⟨bitlen n - 54, by omega⟩
    have hs1 : bitlen n - 53 = s + 1 := by omega
    have hs2 : bitlen n - 1 = s + 53 := by omega
    rw [hs1]
    rw [hs2] at hspec
    simp only [Nat.add_sub_cancel]
    obtain ⟨q1, hq1, hlo, hhi⟩ := f64_nearest_quotient n s
    rw [hq1]
    have hsign : (n : Int).sign = 1 := Int.sign_eq_one_of_pos (by omega)
    rw [hsign, one_mul]
    refine ⟨Int.ofNat_nonneg _, ?_⟩
    simp only [F64.val, Int.cast_natCast]
    rw [zpow_add₀ (by norm_num : (2 : ℚ) ≠ 0), zpow_natCast]
    have hpow2 : 2 ^ (s + 53) = 2 ^ s * 2 ^ 53 := by rw [pow_add]
    have hhalfn : ((2 : ℚ) ^ s) * 2 ^ 53 ≤ n := by
      have : ((2 ^ (s + 53) : ℕ) : ℚ) ≤ n := by exact_mod_cast hspec
      rw [hpow2] at this
      push_cast at this
      exact this
    have hloq : (q1 : ℚ) * 2 ^ (s + 1) ≤ n + 2 ^ s := by exact_mod_cast hlo
    have hhiq : (n : ℚ) ≤ q1 * 2 ^ (s + 1) + 2 ^ s := by exact_mod_cast hhi
    have h1 : (q1 : ℚ) * ((2 : ℚ) ^ e * 2 ^ (s + 1)) - (n : ℚ) * 2 ^ e =
        ((q1 : ℚ) * 2 ^ (s + 1) - n) * 2 ^ e := by ring
    have habs : |(q1 : ℚ) * 2 ^ (s + 1) - n| ≤ 2 ^ s := by
      rw [abs_le]
      constructor <;> linarith
    rw [h1, abs_mul, abs_of_pos h2e]
    calc |(q1 : ℚ) * 2 ^ (s + 1) - n| * 2 ^ e * 2 ^ 53
        ≤ 2 ^ s * 2 ^ e * 2 ^ 53 := by gcongr
      _ = (2 ^ s * 2 ^ 53) * 2 ^ e := by ring
      _ ≤ n * 2 ^ e := by gcongr

theorem f64_round_neg (m e : Int) (h : m < 0) : (F64.round m e).m < 0 := by
  unfold F64.round
  simp only
  by_cases hb : bitlen m.natAbs ≤ 53
  · rw [if_pos hb]; exact h
  · rw [if_neg hb]
    simp only
    have hn0 : m.natAbs ≠ 0 := by omega
    have hspec := (bitlen_spec m.natAbs hn0).1
    obtain ⟨s, hs⟩ : ∃ s, bitlen m.natAbs = s + 1 + 53 := ⟨bitlen m.natAbs - 54, by omega⟩
    have hs1 : bitlen m.natAbs - 53 = s + 1 := by omega
    have hs2 : bitlen m.natAbs - 1 = s + 53 := by omega
    rw [hs1]
    rw [hs2] at hspec
    have hq : 0 < m.natAbs / 2 ^ (s + 1) := by
      apply Nat.div_pos _ (by positivity)
      calc 2 ^ (s + 1) ≤ 2 ^ (s + 53) := Nat.pow_le_pow_right (by norm_num) (by omega)
        _ ≤ m.natAbs := hspec
    rw [Int.sign_eq_neg_one_of_neg h]
    have : (0 : Int) < ((if 2 ^ (s + 1 - 1) < m.natAbs % 2 ^ (s + 1) ∨
        m.natAbs % 2 ^ (s + 1) = 2 ^ (s + 1 - 1) ∧ m.natAbs / 2 ^ (s + 1) % 2 = 1 then
          m.natAbs / 2 ^ (s + 1) + 1 else m.natAbs / 2 ^ (s + 1) : Nat) : Int) := by
      split_ifs <;> omega
    omega

/-- Rounding an integer mantissa that is not negative. -/
theorem f64_round_nonneg_spec (m e : Int) (h : 0 ≤ m) :
    0 ≤ (F64.round m e).m ∧
    |(F64.round m e).val - (m : ℚ) * (2 : ℚ) ^ e| * 2 ^ 53 ≤ (m : ℚ) * (2 : ℚ) ^ e := by
  obtain ⟨n, rfl⟩ := Int.eq_ofNat_of_zero_le h
  have := f64_round_nat_spec n e
  simpa using this

theorem f64_val_addExact (a b : F64) : (F64.addExact a b).val = a.val + b.val := by
  unfold F64.addExact F64.val
  simp only
  have h2 : (2 : ℚ) ≠ 0 := by norm_num
  have ha : (0 : Int) ≤ a.e - min a.e b.e := by omega
  have hb : (0 : Int) ≤ b.e - min a.e b.e := by omega
  push_cast
  have e1 : ((2 : ℚ) ^ (a.e - min a.e b.e).toNat) * (2 : ℚ) ^ (min a.e b.e) = (2 : ℚ) ^ a.e := by
    rw [← zpow_natCast, Int.toNat_of_nonneg ha, ← zpow_add₀ h2]
    congr 1; omega
  have e2 : ((2 : ℚ) ^ (b.e - min a.e b.e).toNat) * (2 : ℚ) ^ (min a.e b.e) = (2 : ℚ) ^ b.e := by
    rw [← zpow_natCast, Int.toNat_of_nonneg hb, ← zpow_add₀ h2]
    congr 1; omega
  calc ((a.m : ℚ) * 2 ^ (a.e - min a.e b.e).toNat + (b.m : ℚ) * 2 ^ (b.e - min a.e b.e).toNat) *
        (2 : ℚ) ^ (min a.e b.e)
      = (a.m : ℚ) * (2 ^ (a.e - min a.e b.e).toNat * (2 : ℚ) ^ (min a.e b.e)) +
        (b.m : ℚ) * (2 ^ (b.e - min a.e b.e).toNat * (2 : ℚ) ^ (min a.e b.e)) := by ring
    _ = (a.m : ℚ) * 2 ^ a.e + (b.m : ℚ) * 2 ^ b.e := by rw [e1, e2]

theorem f64_val_neg (a : F64) : (F64.neg a).val = - a.val := by
  simp [F64.neg, F64.val]

theorem f64_val_nonneg (a : F64) (h : 0 ≤ a.m) : 0 ≤ a.val := by
  unfold F64.val
  have : (0 : ℚ) ≤ (a.m : ℚ) := by exact_mod_cast h
  have h2e : (0 : ℚ) < (2 : ℚ) ^ a.e := zpow_pos (by norm_num) _
  positivity

theorem f64_m_nonneg_of_val (a : F64) (h : 0 ≤ a.val) : 0 ≤ a.m := by
  by_contra hc
  have hneg : (a.m : ℚ) < 0 := by exact_mod_cast (not_le.mp hc)
  have h2e : (0 : ℚ) < (2 : ℚ) ^ a.e := zpow_pos (by norm_num) _
  have : a.val < 0 := by
    unfold F64.val
    exact mul_neg_of_neg_of_pos hneg h2e
  linarith

/-- Product of two doubles that are not negative. -/
theorem f64_mul_spec (a b : F64) (ha : 0 ≤ a.m) (hb : 0 ≤ b.m) :
    0 ≤ (F64.mul a b).m ∧
    |(F64.mul a b).val - a.val * b.val| * 2 ^ 53 ≤ a.val * b.val := by
  have h := f64_round_nonneg_spec (a.m * b.m) (a.e + b.e) (Int.mul_nonneg ha hb)
  have e : ((a.m * b.m : Int) : ℚ) * (2 : ℚ) ^ (a.e + b.e) = a.val * b.val := by
    unfold F64.val
    rw [zpow_add₀ (by norm_num : (2 : ℚ) ≠ 0)]
    push_cast
    ring
  rw [e] at h
  exact h

/-- Sum of two doubles whose exact sum is not negative. -/
theorem f64_add_spec (a b : F64) (h : 0 ≤ a.val + b.val) :
    0 ≤ (F64.add a b).m ∧
    |(F64.add a b).val - (a.val + b.val)| * 2 ^ 53 ≤ a.val + b.val := by
  have hv := f64_val_addExact a b
  have hm : 0 ≤ (F64.addExact a b).m := f64_m_nonneg_of_val _ (by rw [hv]; exact h)
  have hr := f64_round_nonneg_spec (F64.addExact a b).m (F64.addExact a b).e hm
  have e : ((F64.addExact a b).m : ℚ) * (2 : ℚ) ^ (F64.addExact a b).e = a.val + b.val := by
    rw [← hv]; rfl
  rw [e] at hr
  exact hr

/-- Sum of two doubles whose exact sum is negative. -/
theorem f64_add_neg_spec (a b : F64) (h : a.val + b.val < 0) : (F64.add a b).m < 0 := by
  have hv := f64_val_addExact a b
  have hm : (F64.addExact a b).m < 0 := by
    by_contra hc
    have := f64_val_nonneg _ (not_lt.mp hc)
    rw [hv] at this
    linarith
  exact f64_round_neg _ _ hm

/-- The integer part of a double that is not negative. -/
theorem f64_int_part_spec (x : F64) (h0 : 0 ≤ x.m) :
    (F64.int_part x : ℚ) ≤ x.val ∧ x.val < (F64.int_part x : ℚ) + 1 := by
  obtain ⟨n, hn⟩ := Int.eq_ofNat_of_zero_le h0
  have h2 : (2 : ℚ) ≠ 0 := by norm_num
  unfold F64.int_part
  unfold F64.val
  rw [hn]
  simp only [Int.toNat_ofNat, Int.cast_natCast]
  by_cases he : 0 ≤ x.e
  · rw [if_pos he]
    obtain ⟨k, hk⟩ := Int.eq_ofNat_of_zero_le he
    rw [hk]
    simp only [Int.toNat_ofNat, zpow_natCast]
    push_cast
    constructor <;> linarith
  · rw [if_neg he]
    obtain ⟨k, hk⟩ : ∃ k : Nat, x.e = -(k : Int) := ⟨(-x.e).toNat, by omega⟩
    rw [hk]
    simp only [neg_neg, Int.toNat_ofNat, zpow_neg, zpow_natCast]
    have hpos : (0 : ℚ) < 2 ^ k := by positivity
    have hdm := Nat.div_add_mod n (2 ^ k)
    have hr := Nat.mod_lt n (show 0 < 2 ^ k by positivity)
    have hnq : (n : ℚ) = 2 ^ k * (n / 2 ^ k : ℕ) + (n % 2 ^ k : ℕ) := by
      have : (n : ℚ) = ((2 ^ k * (n / 2 ^ k) + n % 2 ^ k : ℕ) : ℚ) := by rw [hdm]
      rw [this]; push_cast; ring
    have hrq : ((n % 2 ^ k : ℕ) : ℚ) < 2 ^ k := by exact_mod_cast hr
    have hr0 : (0 : ℚ) ≤ ((n % 2 ^ k : ℕ) : ℚ) := by positivity
    rw [← div_eq_mul_inv]
    constructor
    · rw [le_div_iff₀ hpos]
      nlinarith
    · rw [div_lt_iff₀ hpos]
      nlinarith

/-- The cast to `uint64_t` of a double that is not negative and below `2 ^ 64`
is defined and takes the integer part. -/
theorem f64_to_u64_spec (x : F64) (h0 : 0 ≤ x.m) (h1 : x.val < 2 ^ 64) :
    F64.cast_defined x ∧
    (F64.to_u64 x : ℚ) ≤ x.val ∧ x.val < (F64.to_u64 x : ℚ) + 1 := by
  obtain ⟨h2, h3⟩ := f64_int_part_spec x h0
  have hlt : F64.int_part x < 2 ^ 64 := by
    have : (F64.int_part x : ℚ) < 2 ^ 64 := lt_of_le_of_lt h2 h1
    exact_mod_cast this
  have hd : F64.cast_defined x := ⟨h0, hlt⟩
  refine ⟨hd, ?_⟩
  unfold F64.to_u64
  rw [if_pos hd]
  exact ⟨h2, h3⟩

theorem f64_abs_mul_bounds {d c K : ℚ} (hK : 0 < K) (h : |d| * K ≤ c) :
    -c ≤ d * K ∧ d * K ≤ c := by
  have h1 := neg_abs_le d
  have h2 := le_abs_self d
  constructor <;> nlinarith

theorem f64_val_of_int_small (x : Int) (h0 : 0 ≤ x) (h1 : x < 2 ^ 53) :
    F64.of_int x = ⟨x, 0⟩ := by
  unfold F64.of_int
  apply f64_round_exact
  omega


namespace UdpTxtimeReplay

/-! ## The header checks -/

theorem byte_lt (f : Frame) (i : Nat) : f.byte i < 256 := (f.data.getD i 0).isLt

theorem udp_len_lt (f : Frame) : udp_len f < 65536 := by
  have h1 := byte_lt f (14 + ip_ihl f * 4 + 4)
  have h2 := byte_lt f (14 + ip_ihl f * 4 + 5)
  unfold udp_len; omega

theorem val_bind {α β : Type} (x : Logged α) (g : α → Logged β) :
    (x >>= g).val = x.val.bind (fun a => (g a).val) := by
  show (Logged.bind x g).val = _
  unfold Logged.bind
  cases h : x.val <;> simp

theorem val_map {α β : Type} (x : Logged α) (k : α → β) :
    (k <$> x).val = x.val.map k := by
  show (Logged.bind x _).val = _
  unfold Logged.bind
  cases h : x.val <;> simp [pure]

theorem val_pure {α : Type} (a : α) : (pure a : Logged α).val = some a := rfl

theorem val_continue_if (c : Bool) : (continue_if c).val = if c then none else some () := rfl

theorem val_load8 (f : Frame) (i : Nat) : (load8 f i).val = some (f.byte i) := rfl

theorem val_load16be (f : Frame) (i : Nat) :
    (load16be f i).val = some (f.byte i * 256 + f.byte (i + 1)) := by
  simp [load16be, val_bind, val_load8, val_pure]

theorem val_usub (a b : Nat) : (usub a b).val = some ((a + U64_MOD - b) % U64_MOD) := rfl

theorem val_guard_bind {β : Type} (c : Bool) (g : Unit → Logged β) :
    (continue_if c >>= g).val = if c = true then none else (g ()).val := by
  rw [val_bind, val_continue_if]; cases c <;> rfl

theorem val_load8_bind {β : Type} (f : Frame) (i : Nat) (g : Nat → Logged β) :
    (load8 f i >>= g).val = (g (f.byte i)).val := by
  rw [val_bind, val_load8]; rfl

theorem val_load8_map_bind {β : Type} (f : Frame) (i : Nat) (k : Nat → Nat)
    (g : Nat → Logged β) : ((k <$> load8 f i) >>= g).val = (g (k (f.byte i))).val := by
  rw [val_bind, val_map, val_load8]; rfl

theorem val_load16be_bind {β : Type} (f : Frame) (i : Nat) (g : Nat → Logged β) :
    (load16be f i >>= g).val = (g (f.byte i * 256 + f.byte (i + 1))).val := by
  rw [val_bind, val_load16be]; rfl

theorem usub_exact (a b : Nat) (h : b ≤ a) (ha : a < U64_MOD) :
    (a + U64_MOD - b) % U64_MOD = a - b := by
  rw [show a + U64_MOD - b = (a - b) + U64_MOD by omega, Nat.add_mod_right]
  exact Nat.mod_eq_of_lt (by omega)

theorem val_usub_bind {β : Type} (a b : Nat) (g : Nat → Logged β) (h : b ≤ a)
    (ha : a < U64_MOD) : (usub a b >>= g).val = (g (a - b)).val := by
  rw [val_bind, val_usub, usub_exact a b h ha]; rfl

/-- The header checks let a frame through exactly when `headers_ok` holds, and
then the payload is found at `14 + ihl*4 + 8`, `udp_len - 8` bytes long. -/
theorem parse_frame_val (f : Frame) :
    (parse_frame f).val =
      if headers_ok f then some ⟨14 + ip_ihl f * 4 + 8, udp_len f - 8⟩ else none := by
  have hl := udp_len_lt f
  unfold parse_frame headers_ok
  rw [val_guard_bind]
  by_cases h1 : 14 ≤ f.caplen
  swap
  · rw [if_pos (by simpa [sizeof_ether_header] using h1), if_neg (by tauto)]
  rw [if_neg (by simpa [sizeof_ether_header] using h1), val_load16be_bind, val_guard_bind]
  by_cases h2 : ether_type f = 0x0800
  swap
  · rw [if_pos (by simpa [ETHERTYPE_IP, ether_type] using h2), if_neg (by tauto)]
  rw [if_neg (by simpa [ETHERTYPE_IP, ether_type] using h2), val_guard_bind]
  by_cases h3 : 14 + 20 ≤ f.caplen
  swap
  · rw [if_pos (by simpa [sizeof_ether_header, sizeof_iphdr] using h3), if_neg (by tauto)]
  rw [if_neg (by simpa [sizeof_ether_header, sizeof_iphdr] using h3), val_load8_map_bind,
    val_load8_map_bind, val_guard_bind]
  by_cases h4 : ip_version f = 4 ∧ 20 ≤ ip_ihl f * 4
  swap
  · rw [if_pos, if_neg (by tauto)]
    simp only [ip_version, ip_ihl, not_and_or, not_le] at h4
    simpa [sizeof_ether_header, sizeof_iphdr] using h4
  rw [if_neg, val_load8_bind, val_guard_bind]
  swap
  · simp only [ip_version, ip_ihl] at h4
    simp [sizeof_ether_header, sizeof_iphdr, h4.1, h4.2]
  by_cases h5 : ip_protocol f = 17
  swap
  · rw [if_pos (by simpa [sizeof_ether_header, IPPROTO_UDP, ip_protocol] using h5),
      if_neg (by tauto)]
  rw [if_neg (by simpa [sizeof_ether_header, IPPROTO_UDP, ip_protocol] using h5), val_guard_bind]
  by_cases h6 : 14 + ip_ihl f * 4 + 8 ≤ f.caplen
  swap
  · rw [if_pos (by simpa [sizeof_ether_header, sizeof_udphdr, ip_ihl] using h6),
      if_neg (by tauto)]
  rw [if_neg (by simpa [sizeof_ether_header, sizeof_udphdr, ip_ihl] using h6),
    val_load16be_bind, val_guard_bind]
  have hu : f.byte (sizeof_ether_header + f.byte sizeof_ether_header % 16 * 4 + 4) * 256 +
      f.byte (sizeof_ether_header + f.byte sizeof_ether_header % 16 * 4 + 4 + 1) =
        udp_len f := by
    simp [udp_len, ip_ihl, sizeof_ether_header]
  rw [hu]
  by_cases h7 : 8 ≤ udp_len f
  swap
  · rw [if_pos (by simpa [sizeof_udphdr] using h7), if_neg (by tauto)]
  rw [if_neg (by simpa [sizeof_udphdr] using h7),
    val_usub_bind _ _ _ (by simpa [sizeof_udphdr] using h7) (by unfold U64_MOD; omega),
    val_guard_bind]
  by_cases h8 : 14 + ip_ihl f * 4 + udp_len f ≤ f.caplen
  swap
  · rw [if_pos, if_neg (by tauto)]
    simp only [sizeof_ether_header, sizeof_udphdr, decide_eq_true_eq]
    unfold ip_ihl at h8; omega
  rw [if_neg, if_pos ⟨h1, h2, h3, h4, h5, h6, h7, h8⟩, val_pure]
  · simp [sizeof_ether_header, sizeof_udphdr, ip_ihl]
  · simp only [sizeof_ether_header, sizeof_udphdr, decide_eq_true_eq]
    unfold ip_ihl at h8; omega

theorem load_frame_packets (st : Loader) (f : Frame) :
    (load_frame st f).2.packets =
      if spec_accepts f then
        st.packets ++ [⟨rel_ns_of (abs_ts f.ts) (epoch_after st f), udp_len f - 8,
          (f.data.drop (14 + ip_ihl f * 4 + 8)).take (udp_len f - 8)⟩]
      else st.packets := by
  unfold load_frame spec_accepts
  simp only [parse_frame_val]
  by_cases h : headers_ok f
  · by_cases h0 : udp_len f - 8 = 0
    · simp [h, h0, append_packet]
    · simp [h, h0, append_packet, Nat.pos_of_ne_zero h0, epoch_after]
  · simp [h]

theorem load_frame_first_ts (st : Loader) (f : Frame) :
    (load_frame st f).2.first_ts = if headers_ok f then epoch_after st f else st.first_ts := by
  unfold load_frame
  simp only [parse_frame_val]
  by_cases h : headers_ok f <;> simp [h, epoch_after]

/-! ## The frame loop -/

theorem run_frames_nil (st : Loader) : run_frames st [] = st := rfl

theorem run_frames_cons (st : Loader) (f : Frame) (fs : List Frame) :
    run_frames st (f :: fs) = run_frames (load_frame st f).2 fs := rfl

theorem load_loop_eq (results : List pcap_next) (st : Loader) :
    load_loop results st =
      if pcap_next.error ∈ results then none else some (run_frames st (frames_of results)) := by
  induction results generalizing st with
  | nil => simp [load_loop, frames_of, run_frames_nil]
  | cons r rest ih =>
    cases r with
    | timeout => simp [load_loop, frames_of, ih]
    | packet f => simp [load_loop, frames_of, ih, run_frames_cons]
    | error => simp [load_loop]

theorem frames_of_map_packet (fs : List Frame) : frames_of (fs.map pcap_next.packet) = fs := by
  induction fs with
  | nil => rfl
  | cons f fs ih => simp [frames_of, ih]

theorem mem_frames_of (f : Frame) (results : List pcap_next) :
    f ∈ frames_of results ↔ pcap_next.packet f ∈ results := by
  induction results with
  | nil => simp [frames_of]
  | cons r rest ih => cases r <;> simp [frames_of, ih]

/-- Length and payload of the packets after a run of frames: those before,
followed by one entry per accepted frame, in order. -/
theorem run_frames_len_payload (fs : List Frame) (st : Loader) :
    (run_frames st fs).packets.map (fun p => (p.len, p.payload)) =
      st.packets.map (fun p => (p.len, p.payload)) ++
        (fs.filter (fun f => decide (spec_accepts f))).map spec_len_payload := by
  induction fs generalizing st with
  | nil => simp [run_frames_nil]
  | cons f fs ih =>
    rw [run_frames_cons, ih, load_frame_packets]
    by_cases h : spec_accepts f
    · simp [h, spec_len_payload]
    · simp [h]

theorem spec_accepts_len_pos (f : Frame) (h : spec_accepts f) : 0 < (spec_len_payload f).1 := h.2

theorem spec_accepts_payload_length (f : Frame) (h : spec_accepts f) :
    (spec_len_payload f).2.length = (spec_len_payload f).1 := by
  obtain ⟨⟨_, _, _, _, _, _, h7, h8⟩, _⟩ := h
  simp only [spec_len_payload, List.length_take, List.length_drop]
  unfold Frame.caplen at h8
  omega

theorem load_trace_len_payload (fs : List Frame) :
    (load_trace fs).map (fun p => (p.len, p.payload)) =
      (fs.filter (fun f => decide (spec_accepts f))).map spec_len_payload := by
  unfold load_trace
  rw [run_frames_len_payload]
  simp [Loader.init]

theorem load_trace_mem (fs : List Frame) (p : replay_packet) (hp : p ∈ load_trace fs) :
    ∃ f, f ∈ fs ∧ spec_accepts f ∧ (p.len, p.payload) = spec_len_payload f := by
  have h1 : (p.len, p.payload) ∈ (load_trace fs).map (fun p => (p.len, p.payload)) :=
    List.mem_map.mpr ⟨p, hp, rfl⟩
  rw [load_trace_len_payload] at h1
  obtain ⟨f, hf, he⟩ := List.mem_map.mp h1
  rw [List.mem_filter] at hf
  exact ⟨f, hf.1, by simpa using hf.2, he.symm⟩

/-- C1. Trace loader acceptance: one pass of the frame loop appends a packet
exactly when the frame meets the nine conditions (captured length at least 14,
Ethernet type 0x0800, captured length at least 34, version 4 and `ihl*4 >= 20`,
protocol 17, captured length at least `14 + ihl*4 + 8`, `udp_len >= 8`,
captured length at least `14 + ihl*4 + udp_len`, `udp_len - 8 > 0`); any other
frame leaves the trace as it was; the load ends in failure only on a read
error of the capture, never because of a frame; a UDP frame with `udp_len = 8`
is not inserted; every packet of a loaded trace has `len > 0`. -/
theorem loader_acceptance :
    (∀ (st : Loader) (f : Frame),
      (∃ p, (load_frame st f).2.packets = st.packets ++ [p]) ↔
        (14 ≤ f.caplen ∧ ether_type f = 0x0800 ∧ 14 + 20 ≤ f.caplen ∧
          (ip_version f = 4 ∧ 20 ≤ ip_ihl f * 4) ∧ ip_protocol f = 17 ∧
          14 + ip_ihl f * 4 + 8 ≤ f.caplen ∧ 8 ≤ udp_len f ∧
          14 + ip_ihl f * 4 + udp_len f ≤ f.caplen) ∧ 0 < udp_len f - 8) ∧
    (∀ (st : Loader) (f : Frame),
      ¬ (∃ p, (load_frame st f).2.packets = st.packets ++ [p]) →
        (load_frame st f).2.packets = st.packets) ∧
    (∀ (results : List pcap_next) (st : Loader),
      load_loop results st = none ↔ pcap_next.error ∈ results) ∧
    (∀ (fs : List Frame),
      load_loop (fs.map pcap_next.packet) Loader.init = some (run_frames Loader.init fs)) ∧
    (∀ (st : Loader) (f : Frame), udp_len f = 8 → (load_frame st f).2.packets = st.packets) ∧
    (∀ (fs : List Frame) (p : replay_packet), p ∈ load_trace fs → 0 < p.len) := by
  have key : ∀ (st : Loader) (f : Frame),
      (∃ p, (load_frame st f).2.packets = st.packets ++ [p]) ↔ spec_accepts f := by
    intro st f
    rw [load_frame_packets]
    by_cases h : spec_accepts f
    · simp [h]
    · simp [h]
  refine ⟨key, ?_, ?_, ?_, ?_, ?_⟩
  · intro st f h
    rw [key] at h
    rw [load_frame_packets, if_neg h]
  · intro results st
    rw [load_loop_eq]
    by_cases h : pcap_next.error ∈ results <;> simp [h]
  · intro fs
    rw [load_loop_eq, frames_of_map_packet]
    simp
  · intro st f h
    rw [load_frame_packets, if_neg]
    intro hacc
    have := hacc.2
    omega
  · intro fs p hp
    obtain ⟨f, _, hacc, he⟩ := load_trace_mem fs p hp
    have h1 := spec_accepts_len_pos f hacc
    rw [← he] at h1
    exact h1

set_option maxRecDepth 100000 in
/-- C3. Order preservation and payload extraction: the loaded trace has one
packet per accepted frame, in capture order, with `len = udp_len - 8` and as
payload the `len` bytes of the frame from offset `14 + ihl*4 + 8` on (so the
payload has `len` bytes); the capture [non-IPv4, UDP 10, UDP 20, TCP, UDP 5]
loads as three packets of lengths 10, 20, 5. -/
theorem loader_order_and_payload :
    (∀ fs : List Frame,
      (load_trace fs).map (fun p => (p.len, p.payload)) =
        (fs.filter (fun f => decide (spec_accepts f))).map
          (fun f => (udp_len f - 8, (f.data.drop (14 + ip_ihl f * 4 + 8)).take (udp_len f - 8)))) ∧
    (∀ (fs : List Frame) (p : replay_packet), p ∈ load_trace fs → p.payload.length = p.len) ∧
    (load_trace sample_capture).map (fun p => p.len) = [10, 20, 5] := by
  refine ⟨load_trace_len_payload, ?_, by decide⟩
  intro fs p hp
  obtain ⟨f, _, hacc, he⟩ := load_trace_mem fs p hp
  have h1 := spec_accepts_payload_length f hacc
  rw [← he] at h1
  exact h1

/-! ## Memory accesses of the loader -/

theorem forall_log_bind {α β : Type} (P : Access → Prop) (x : Logged α) (g : α → Logged β)
    (hx : ∀ a ∈ x.log, P a) (hg : ∀ v, x.val = some v → ∀ a ∈ (g v).log, P a) :
    ∀ a ∈ (x >>= g).log, P a := by
  show ∀ a ∈ (Logged.bind x g).log, P a
  unfold Logged.bind
  cases h : x.val with
  | none => simpa using hx
  | some v =>
    intro a ha
    simp only [List.mem_append] at ha
    rcases ha with ha | ha
    · exact hx a ha
    · exact hg v h a ha

theorem log_load16be (f : Frame) (i : Nat) :
    (load16be f i).log = [Access.load i, Access.load (i + 1)] := rfl

theorem log_map_load8 (f : Frame) (i : Nat) (k : Nat → Nat) :
    (k <$> load8 f i).log = [Access.load i] := rfl

theorem val_map_load8 (f : Frame) (i : Nat) (k : Nat → Nat) :
    (k <$> load8 f i).val = some (k (f.byte i)) := rfl

theorem continue_if_val_some (c : Bool) (u : Unit) (h : (continue_if c).val = some u) :
    c = false := by
  cases c
  · rfl
  · simp [continue_if] at h

/-- Every access the header checks make is in order. -/
theorem parse_frame_log_ok (f : Frame) : ∀ a ∈ (parse_frame f).log, access_ok f a := by
  have hl := udp_len_lt f
  unfold parse_frame
  refine forall_log_bind _ _ _ (by simp [continue_if]) ?_
  intro _ h1
  have h1 := continue_if_val_some _ _ h1
  simp only [sizeof_ether_header, decide_eq_false_iff_not, not_lt] at h1
  refine forall_log_bind _ _ _ ?_ ?_
  · rw [log_load16be]
    simp only [List.mem_cons, List.mem_singleton, List.not_mem_nil, or_false]
    rintro a (rfl | rfl) <;> simp only [access_ok] <;> omega
  intro ety _
  refine forall_log_bind _ _ _ (by simp [continue_if]) ?_
  intro _ _
  refine forall_log_bind _ _ _ (by simp [continue_if]) ?_
  intro _ h3
  have h3 := continue_if_val_some _ _ h3
  simp only [sizeof_ether_header, sizeof_iphdr, decide_eq_false_iff_not, not_lt] at h3
  refine forall_log_bind _ _ _ ?_ ?_
  · rw [log_map_load8]
    simp only [List.mem_singleton, sizeof_ether_header]
    rintro a rfl
    simp only [access_ok]
    omega
  intro ihl hihl
  rw [val_map_load8] at hihl
  have hihl : ihl = ip_ihl f := by
    simp only [Option.some.injEq, sizeof_ether_header] at hihl
    exact hihl.symm
  subst hihl
  refine forall_log_bind _ _ _ ?_ ?_
  · rw [log_map_load8]
    simp only [List.mem_singleton, sizeof_ether_header]
    rintro a rfl
    simp only [access_ok]
    omega
  intro version _
  refine forall_log_bind _ _ _ (by simp [continue_if]) ?_
  intro _ h4
  have h4 := continue_if_val_some _ _ h4
  simp only [sizeof_iphdr, Bool.or_eq_false_iff, decide_eq_false_iff_not, not_lt] at h4
  have h4 := h4.2
  refine forall_log_bind _ _ _ ?_ ?_
  · simp only [load8, List.mem_singleton, sizeof_ether_header]
    rintro a rfl
    simp only [access_ok]
    omega
  intro protocol _
  refine forall_log_bind _ _ _ (by simp [continue_if]) ?_
  intro _ _
  refine forall_log_bind _ _ _ (by simp [continue_if]) ?_
  intro _ h6
  have h6 := continue_if_val_some _ _ h6
  simp only [sizeof_ether_header, sizeof_udphdr, decide_eq_false_iff_not, not_lt] at h6
  refine forall_log_bind _ _ _ ?_ ?_
  · rw [log_load16be]
    simp only [List.mem_cons, List.mem_singleton, List.not_mem_nil, or_false,
      sizeof_ether_header]
    rintro a (rfl | rfl) <;> simp only [access_ok] <;> omega
  intro ulen hulen
  rw [val_load16be] at hulen
  have hulen : ulen = udp_len f := by
    simp only [Option.some.injEq, sizeof_ether_header] at hulen
    rw [← hulen]
    simp [udp_len]
  subst hulen
  refine forall_log_bind _ _ _ (by simp [continue_if]) ?_
  intro _ h7
  have h7 := continue_if_val_some _ _ h7
  simp only [sizeof_udphdr, decide_eq_false_iff_not, not_lt] at h7
  refine forall_log_bind _ _ _ ?_ ?_
  · simp only [usub, List.mem_singleton, sizeof_udphdr]
    rintro a rfl
    exact ⟨h7, rfl, rfl⟩
  intro plen _
  refine forall_log_bind _ _ _ (by simp [continue_if]) ?_
  intro _ _
  simp [pure]

/-- The accesses of one pass of the frame loop: those of the header checks,
then the reads of the `memcpy`. -/
theorem load_frame_log (st : Loader) (f : Frame) :
    (load_frame st f).1 =
      (parse_frame f).log ++
        if spec_accepts f then
          (List.range (udp_len f - 8)).map (fun j => Access.load (14 + ip_ihl f * 4 + 8 + j))
        else [] := by
  have hv := parse_frame_val f
  unfold load_frame spec_accepts
  by_cases h : headers_ok f
  · rw [if_pos h] at hv
    simp only [hv]
    by_cases h0 : udp_len f - 8 = 0
    · simp [h, h0, append_packet]
    · simp [h, h0, append_packet, Nat.pos_of_ne_zero h0]
  · rw [if_neg h] at hv
    simp [hv, h]

theorem load_frame_log_ok (st : Loader) (f : Frame) :
    ∀ a ∈ (load_frame st f).1, access_ok f a := by
  intro a ha
  rw [load_frame_log, List.mem_append] at ha
  rcases ha with ha | ha
  · exact parse_frame_log_ok f a ha
  · by_cases h : spec_accepts f
    · rw [if_pos h, List.mem_map] at ha
      obtain ⟨j, hj, rfl⟩ := ha
      rw [List.mem_range] at hj
      obtain ⟨⟨_, _, _, h4, _, _, h7, h8⟩, _⟩ := h
      simp only [access_ok]
      omega
    · rw [if_neg h] at ha
      simp at ha

set_option maxRecDepth 100000 in
/-- C10. In-bounds parsing: every byte index the loader reads for a frame is
below `caplen`; bytes 12 and 13 (Ethernet type) are read only when
`caplen >= 14`, bytes 14 and 23 (IP version, ihl, protocol) only when
`caplen >= 34`, the UDP length field at `14 + ihl*4 + 4` only when
`caplen >= 14 + ihl*4 + 8`; for an accepted frame the copied range
`[14 + ihl*4 + 8, 14 + ihl*4 + 8 + (udp_len - 8))` is read and lies within
`[0, caplen)`; the only subtraction evaluated is `udp_len - 8`, and only with
`udp_len >= 8`.  The last part lists the accesses for a UDP frame with a
two-byte payload. -/
theorem loader_reads_in_bounds :
    (∀ (st : Loader) (f : Frame) (i : Nat),
      Access.load i ∈ (load_frame st f).1 → i < f.caplen) ∧
    (∀ (st : Loader) (f : Frame),
      (Access.load 12 ∈ (load_frame st f).1 ∨ Access.load 13 ∈ (load_frame st f).1) →
        14 ≤ f.caplen) ∧
    (∀ (st : Loader) (f : Frame),
      (Access.load 14 ∈ (load_frame st f).1 ∨ Access.load 23 ∈ (load_frame st f).1) →
        34 ≤ f.caplen) ∧
    (∀ (st : Loader) (f : Frame),
      (Access.load (14 + ip_ihl f * 4 + 4) ∈ (load_frame st f).1 ∨
        Access.load (14 + ip_ihl f * 4 + 5) ∈ (load_frame st f).1) →
        14 + ip_ihl f * 4 + 8 ≤ f.caplen) ∧
    (∀ (st : Loader) (f : Frame), spec_accepts f →
      14 + ip_ihl f * 4 + 8 + (udp_len f - 8) ≤ f.caplen ∧
      ∀ j, j < udp_len f - 8 →
        Access.load (14 + ip_ihl f * 4 + 8 + j) ∈ (load_frame st f).1) ∧
    (∀ (st : Loader) (f : Frame) (a b : Nat),
      Access.usub a b ∈ (load_frame st f).1 → a = udp_len f ∧ b = 8 ∧ 8 ≤ udp_len f) ∧
    (load_frame Loader.init (udp_frame ⟨0, 0⟩ [1, 2])).1 =
      [Access.load 12, Access.load 13, Access.load 14, Access.load 14, Access.load 23,
        Access.load 38, Access.load 39, Access.usub 10 8, Access.load 42, Access.load 43] := by
  refine ⟨?_, ?_, ?_, ?_, ?_, ?_, by decide⟩
  · intro st f i hi
    exact (load_frame_log_ok st f _ hi).1
  · intro st f h
    rcases h with h | h
    · exact (load_frame_log_ok st f _ h).2.1 (Or.inl rfl)
    · exact (load_frame_log_ok st f _ h).2.1 (Or.inr rfl)
  · intro st f h
    rcases h with h | h
    · exact (load_frame_log_ok st f _ h).2.2.1 (Or.inl rfl)
    · exact (load_frame_log_ok st f _ h).2.2.1 (Or.inr rfl)
  · intro st f h
    rcases h with h | h
    · exact (load_frame_log_ok st f _ h).2.2.2 (Or.inl rfl)
    · exact (load_frame_log_ok st f _ h).2.2.2 (Or.inr rfl)
  · intro st f hacc
    constructor
    · obtain ⟨⟨_, _, _, _, _, _, h7, h8⟩, _⟩ := hacc
      omega
    · intro j hj
      rw [load_frame_log, if_pos hacc, List.mem_append]
      right
      exact List.mem_map.mpr ⟨j, List.mem_range.mpr hj, rfl⟩
  · intro st f a b h
    have h1 := load_frame_log_ok st f _ h
    simp only [access_ok] at h1
    obtain ⟨h2, h3, h4⟩ := h1
    subst h3 h4
    exact ⟨rfl, rfl, h2⟩

/-! ## Relative offsets -/

theorem abs_ts_nonneg (ts : timeval) (h1 : 0 ≤ ts.tv_sec) (h2 : 0 ≤ ts.tv_usec) :
    F64.ltZero (abs_ts ts) = false := by
  have ha : 0 ≤ (F64.of_int ts.tv_sec).m := f64_round_m_nonneg _ _ h1
  have hb : 0 ≤ (F64.of_int ts.tv_usec).m := f64_round_m_nonneg _ _ h2
  have hc : 0 ≤ (F64.mul (F64.of_int ts.tv_usec) F64.c1eM6).m :=
    f64_round_m_nonneg _ _ (Int.mul_nonneg hb (by decide))
  have hd : 0 ≤ (abs_ts ts).m := by
    unfold abs_ts F64.add
    apply f64_round_m_nonneg
    unfold F64.addExact
    simp only
    positivity
  simp [F64.ltZero, hd]

theorem cast_of_zero (x : F64) (h : x.m = 0) : F64.cast_defined x ∧ F64.to_u64 x = 0 := by
  have hi : F64.int_part x = 0 := by
    unfold F64.int_part
    rw [h]
    split <;> simp
  have hd : F64.cast_defined x := ⟨by rw [h], by rw [hi]; decide⟩
  refine ⟨hd, ?_⟩
  unfold F64.to_u64
  rw [if_pos hd, hi]

theorem scaled_delta_nonpos (a e : F64) (h : (F64.sub a e).m ≤ 0) : (scaled_delta a e).m = 0 := by
  unfold scaled_delta
  simp only
  by_cases hlt : (F64.sub a e).m < 0
  · simp [F64.ltZero, hlt, F64.zero, F64.mul, f64_round_zero]
  · have h0 : (F64.sub a e).m = 0 := by omega
    simp [F64.ltZero, hlt, F64.mul, h0, f64_round_zero]

theorem rel_ns_of_nonpos (a e : F64) (h : (F64.sub a e).m ≤ 0) : rel_ns_of a e = 0 :=
  (cast_of_zero _ (scaled_delta_nonpos a e h)).2

theorem sub_self_m (a : F64) : (F64.sub a a).m = 0 := by
  simp [F64.sub, F64.add, F64.addExact, F64.neg, f64_round_zero]

theorem rel_ns_of_self (a : F64) : rel_ns_of a a = 0 :=
  rel_ns_of_nonpos a a (by rw [sub_self_m])

/-- Once `first_ts` is not negative it stays, and every accepted frame gets
its offset from it. -/
theorem run_frames_rel_ns (fs : List Frame) (st : Loader)
    (h : F64.ltZero st.first_ts = false) :
    (run_frames st fs).packets.map (fun p => p.rel_ns) =
      st.packets.map (fun p => p.rel_ns) ++
        (fs.filter (fun f => decide (spec_accepts f))).map
          (fun f => rel_ns_of (abs_ts f.ts) st.first_ts) := by
  induction fs generalizing st with
  | nil => simp [run_frames_nil]
  | cons f fs ih =>
    have hep : epoch_after st f = st.first_ts := by simp [epoch_after, h]
    have hfirst : (load_frame st f).2.first_ts = st.first_ts := by
      rw [load_frame_first_ts, hep]; simp
    rw [run_frames_cons, ih _ (by rw [hfirst]; exact h), hfirst, load_frame_packets, hep]
    by_cases hacc : spec_accepts f
    · simp [hacc]
    · simp [hacc]

/-- The offsets of a loaded trace, when no timestamp is negative and the
first frame to pass the header checks has a payload. -/
theorem run_frames_epoch (fs : List Frame) (st : Loader)
    (hst : st.packets = []) (hneg : F64.ltZero st.first_ts = true)
    (hts : ∀ f ∈ fs, 0 ≤ f.ts.tv_sec ∧ 0 ≤ f.ts.tv_usec)
    (hfirst : ∀ f, fs.find? (fun f => decide (headers_ok f)) = some f → spec_accepts f) :
    (run_frames st fs).packets.map (fun p => p.rel_ns) = epoch_offsets fs := by
  induction fs generalizing st with
  | nil => simp [run_frames_nil, hst, epoch_offsets]
  | cons f fs ih =>
    by_cases hok : headers_ok f
    · have hacc : spec_accepts f := hfirst f (by simp [List.find?, hok])
      have hf := hts f (List.mem_cons_self _ _)
      have hnn := abs_ts_nonneg f.ts hf.1 hf.2
      have hep : epoch_after st f = abs_ts f.ts := by simp [epoch_after, hneg]
      have h1 : (load_frame st f).2.first_ts = abs_ts f.ts := by
        rw [load_frame_first_ts, if_pos hok, hep]
      rw [run_frames_cons, run_frames_rel_ns _ _ (by rw [h1]; exact hnn), h1,
        load_frame_packets, if_pos hacc, hep, hst]
      simp [epoch_offsets, hacc]
    · have hacc : ¬ spec_accepts f := fun h => hok h.1
      have h1 : (load_frame st f).2 = st := by
        have hp := load_frame_packets st f
        have hf := load_frame_first_ts st f
        rw [if_neg hacc] at hp
        rw [if_neg hok] at hf
        cases hs : (load_frame st f).2 with
        | mk pk ft =>
          rw [hs] at hp hf
          cases st
          simp only at hp hf
          rw [hp, hf]
      rw [run_frames_cons, h1]
      rw [ih st hst hneg (fun g hg => hts g (List.mem_cons_of_mem _ hg))
        (fun g hg => hfirst g (by simpa [List.find?, hok] using hg))]
      simp [epoch_offsets, hacc]

theorem epoch_offsets_head (fs : List Frame) (x : Nat) (h : (epoch_offsets fs).head? = some x) :
    x = 0 := by
  unfold epoch_offsets at h
  split at h
  · simp at h
  · simp only [List.map_cons, List.head?_cons, Option.some.injEq] at h
    rw [← h, rel_ns_of_self]

/-! ## Accuracy of the offsets -/

/-- The double `abs_ts` of a timestamp in range is not negative and within
`(2^32 + 4) * 2^(-53)` seconds of the exact time. -/
theorem abs_ts_spec (ts : timeval) (h : timeval_in_range ts) :
    0 ≤ (abs_ts ts).m ∧
    |(abs_ts ts).val - exact_seconds ts| * 2 ^ 53 ≤ 2 ^ 32 + 4 := by
  obtain ⟨hs0, hs1, hu0, hu1⟩ := h
  unfold abs_ts
  rw [f64_val_of_int_small ts.tv_sec hs0 (by omega), f64_val_of_int_small ts.tv_usec hu0 (by omega)]
  have hP := f64_mul_spec ⟨ts.tv_usec, 0⟩ F64.c1eM6 hu0 (by decide)
  have hvu : (⟨ts.tv_usec, 0⟩ : F64).val = (ts.tv_usec : ℚ) := by simp [F64.val]
  have hvs : (⟨ts.tv_sec, 0⟩ : F64).val = (ts.tv_sec : ℚ) := by simp [F64.val]
  have hvc : F64.c1eM6.val = 4722366482869645 / 2 ^ 72 := by
    simp only [F64.val, F64.c1eM6, zpow_neg]
    norm_num
  rw [hvu, hvc] at hP
  obtain ⟨hPm, hPe⟩ := hP
  have hPv := f64_val_nonneg _ hPm
  have hA := f64_add_spec ⟨ts.tv_sec, 0⟩ (F64.mul ⟨ts.tv_usec, 0⟩ F64.c1eM6)
    (by rw [hvs]; have : (0 : ℚ) ≤ (ts.tv_sec : ℚ) := by exact_mod_cast hs0
        linarith)
  rw [hvs] at hA
  refine ⟨hA.1, ?_⟩
  obtain ⟨hA1, hA2⟩ := f64_abs_mul_bounds (by norm_num) hA.2
  obtain ⟨hP1, hP2⟩ := f64_abs_mul_bounds (by norm_num) hPe
  have hsq0 : (0 : ℚ) ≤ (ts.tv_sec : ℚ) := by exact_mod_cast hs0
  have hsq1 : (ts.tv_sec : ℚ) ≤ 2 ^ 32 - 1 := by
    have : ts.tv_sec ≤ 2 ^ 32 - 1 := by omega
    exact_mod_cast this
  have huq0 : (0 : ℚ) ≤ (ts.tv_usec : ℚ) := by exact_mod_cast hu0
  have huq1 : (ts.tv_usec : ℚ) ≤ 999999 := by
    have : ts.tv_usec ≤ 999999 := by omega
    exact_mod_cast this
  unfold exact_seconds
  generalize (F64.add ⟨ts.tv_sec, 0⟩ (F64.mul ⟨ts.tv_usec, 0⟩ F64.c1eM6)).val = vA at hA1 hA2 ⊢
  generalize (F64.mul ⟨ts.tv_usec, 0⟩ F64.c1eM6).val = vP at hP1 hP2 hPv hA1 hA2 ⊢
  generalize (ts.tv_sec : ℚ) = s at hsq0 hsq1 hA1 hA2 ⊢
  generalize (ts.tv_usec : ℚ) = x at huq0 huq1 hP1 hP2 ⊢
  have h53 : (0 : ℚ) < 2 ^ 53 := by norm_num
  rw [← abs_of_pos h53, ← abs_mul, abs_le]
  norm_num at hA1 hA2 hP1 hP2 ⊢
  constructor <;> linarith



theorem exact_seconds_bounds (ts : timeval) (h : timeval_in_range ts) :
    0 ≤ exact_seconds ts ∧ exact_seconds ts ≤ 2 ^ 32 := by
  obtain ⟨hs0, hs1, hu0, hu1⟩ := h
  have hsq0 : (0 : ℚ) ≤ (ts.tv_sec : ℚ) := by exact_mod_cast hs0
  have hsq1 : (ts.tv_sec : ℚ) ≤ 2 ^ 32 - 1 := by
    have : ts.tv_sec ≤ 2 ^ 32 - 1 := by omega
    exact_mod_cast this
  have huq0 : (0 : ℚ) ≤ (ts.tv_usec : ℚ) := by exact_mod_cast hu0
  have huq1 : (ts.tv_usec : ℚ) ≤ 999999 := by
    have : ts.tv_usec ≤ 999999 := by omega
    exact_mod_cast this
  unfold exact_seconds
  constructor
  · positivity
  · linarith

theorem capture_timestamp_ns_cast (ts : timeval) :
    ((capture_timestamp_ns ts : Int) : ℚ) = exact_seconds ts * 1000000000 := by
  unfold capture_timestamp_ns exact_seconds
  push_cast
  ring

/-- For two timestamps in range the cast of line 259 is defined, and the offset
it yields is within 1909 ns of the exact difference clamped at zero. -/
theorem rel_ns_of_spec (ts ts0 : timeval) (h : timeval_in_range ts)
    (h0 : timeval_in_range ts0) :
    F64.cast_defined (scaled_delta (abs_ts ts) (abs_ts ts0)) ∧
    |(rel_ns_of (abs_ts ts) (abs_ts ts0) : ℚ) -
        max 0 ((exact_seconds ts - exact_seconds ts0) * 1000000000)| ≤ 1909 := by
  obtain ⟨hAm, hAe⟩ := abs_ts_spec ts h
  obtain ⟨hBm, hBe⟩ := abs_ts_spec ts0 h0
  obtain ⟨hT0, hT1⟩ := exact_seconds_bounds ts h
  obtain ⟨hS0, hS1⟩ := exact_seconds_bounds ts0 h0
  obtain ⟨hA1, hA2⟩ := f64_abs_mul_bounds (by norm_num) hAe
  obtain ⟨hB1, hB2⟩ := f64_abs_mul_bounds (by norm_num) hBe
  have hneg : (F64.neg (abs_ts ts0)).val = - (abs_ts ts0).val := f64_val_neg _
  by_cases hd : 0 ≤ (abs_ts ts).val + (F64.neg (abs_ts ts0)).val
  · obtain ⟨hDm, hDe⟩ := f64_add_spec (abs_ts ts) (F64.neg (abs_ts ts0)) hd
    have hlt : F64.ltZero (F64.sub (abs_ts ts) (abs_ts ts0)) = false := by
      simp only [F64.ltZero, F64.sub, decide_eq_false_iff_not, not_lt]
      exact hDm
    obtain ⟨hMm, hMe⟩ := f64_mul_spec (F64.sub (abs_ts ts) (abs_ts ts0)) F64.c1e9 hDm (by decide)
    have hc9 : F64.c1e9.val = 1000000000 := by simp [F64.val, F64.c1e9]
    rw [hc9] at hMe
    obtain ⟨hD1, hD2⟩ := f64_abs_mul_bounds (by norm_num) hDe
    obtain ⟨hM1, hM2⟩ := f64_abs_mul_bounds (by norm_num) hMe
    have hDv := f64_val_nonneg _ hDm
    have hMv := f64_val_nonneg _ hMm
    rw [hneg] at hd hD1 hD2
    have hfloor := f64_to_u64_spec (F64.mul (F64.sub (abs_ts ts) (abs_ts ts0)) F64.c1e9) hMm (by
      change (F64.mul (F64.add (abs_ts ts) (F64.neg (abs_ts ts0))) F64.c1e9).val < 2 ^ 64
      have e : F64.sub (abs_ts ts) (abs_ts ts0) = F64.add (abs_ts ts) (F64.neg (abs_ts ts0)) := rfl
      rw [e] at hM1 hM2
      generalize (F64.mul (F64.add (abs_ts ts) (F64.neg (abs_ts ts0))) F64.c1e9).val = vM
        at hM1 hM2 ⊢
      generalize (F64.add (abs_ts ts) (F64.neg (abs_ts ts0))).val = vD at hD1 hD2 hM1 hM2
      generalize (abs_ts ts).val = vA at hA1 hA2 hD1 hD2 hd
      generalize (abs_ts ts0).val = vB at hB1 hB2 hD1 hD2 hd
      norm_num at hA1 hA2 hB1 hB2 hD1 hD2 hM1 hM2 ⊢
      linarith)
    have hsd : scaled_delta (abs_ts ts) (abs_ts ts0) =
        F64.mul (F64.sub (abs_ts ts) (abs_ts ts0)) F64.c1e9 := by
      unfold scaled_delta
      simp only [hlt]
      rfl
    have hrel : rel_ns_of (abs_ts ts) (abs_ts ts0) =
        F64.to_u64 (F64.mul (F64.sub (abs_ts ts) (abs_ts ts0)) F64.c1e9) := by
      unfold rel_ns_of
      rw [hsd]
    rw [hrel, hsd]
    obtain ⟨hdef, hf1, hf2⟩ := hfloor
    refine ⟨hdef, ?_⟩
    have e : F64.sub (abs_ts ts) (abs_ts ts0) = F64.add (abs_ts ts) (F64.neg (abs_ts ts0)) := rfl
    rw [e] at hM1 hM2 hf1 hf2 ⊢
    generalize ((F64.to_u64 (F64.mul (F64.add (abs_ts ts) (F64.neg (abs_ts ts0))) F64.c1e9) : ℕ) : ℚ)
      = R at hf1 hf2 ⊢
    generalize (F64.mul (F64.add (abs_ts ts) (F64.neg (abs_ts ts0))) F64.c1e9).val = vM
      at hM1 hM2 hf1 hf2
    generalize (F64.add (abs_ts ts) (F64.neg (abs_ts ts0))).val = vD at hD1 hD2 hM1 hM2
    generalize (abs_ts ts).val = vA at hA1 hA2 hD1 hD2 hd
    generalize (abs_ts ts0).val = vB at hB1 hB2 hD1 hD2 hd
    generalize exact_seconds ts = T at hA1 hA2 hT0 hT1 ⊢
    generalize exact_seconds ts0 = S at hB1 hB2 hS0 hS1 ⊢
    norm_num at hA1 hA2 hB1 hB2 hD1 hD2 hM1 hM2
    rw [abs_le]
    rcases le_total 0 ((T - S) * 1000000000) with hc | hc
    · rw [max_eq_right hc]
      constructor <;> linarith
    · rw [max_eq_left hc]
      constructor <;> linarith
  · have hDm := f64_add_neg_spec (abs_ts ts) (F64.neg (abs_ts ts0)) (not_le.mp hd)
    have hrel : rel_ns_of (abs_ts ts) (abs_ts ts0) = 0 :=
      rel_ns_of_nonpos _ _ (le_of_lt hDm)
    refine ⟨(cast_of_zero _ (scaled_delta_nonpos _ _ (le_of_lt hDm))).1, ?_⟩
    rw [hrel, hneg] at *
    have hd' := not_le.mp hd
    generalize (abs_ts ts).val = vA at hA1 hA2 hd'
    generalize (abs_ts ts0).val = vB at hB1 hB2 hd'
    generalize exact_seconds ts = T at hA1 hA2 hT0 hT1 ⊢
    generalize exact_seconds ts0 = S at hB1 hB2 hS0 hS1 ⊢
    norm_num at hA1 hA2 hB1 hB2
    rw [abs_le]
    rcases le_total 0 ((T - S) * 1000000000) with hc | hc
    · rw [max_eq_right hc]
      constructor <;> norm_num <;> linarith
    · rw [max_eq_left hc]
      constructor <;> norm_num

/-- For timestamps as a microsecond capture file holds them, the offset the
loader computes differs from the exact nanosecond difference (clamped at zero)
by less than 2 microseconds. -/
theorem rel_ns_accuracy (ts ts0 : timeval) (h : timeval_in_range ts)
    (h0 : timeval_in_range ts0) :
    |(rel_ns_of (abs_ts ts) (abs_ts ts0) : Int) -
        ((capture_timestamp_ns ts - capture_timestamp_ns ts0).toNat : Int)| ≤ 1909 := by
  have hq := (rel_ns_of_spec ts ts0 h h0).2
  have hx : (((capture_timestamp_ns ts - capture_timestamp_ns ts0).toNat : Int) : ℚ) =
      max 0 ((exact_seconds ts - exact_seconds ts0) * 1000000000) := by
    rw [Int.toNat_eq_max]
    push_cast
    rw [capture_timestamp_ns_cast, capture_timestamp_ns_cast, max_comm]
    congr 1
    ring
  have : ((|(rel_ns_of (abs_ts ts) (abs_ts ts0) : Int) -
        ((capture_timestamp_ns ts - capture_timestamp_ns ts0).toNat : Int)| : Int) : ℚ) ≤ 1909 := by
    have hx2 : (((capture_timestamp_ns ts - capture_timestamp_ns ts0).toNat : ℕ) : ℚ) =
        max 0 ((exact_seconds ts - exact_seconds ts0) * 1000000000) := by
      rw [← hx]
      norm_cast
    push_cast
    rw [hx2]
    exact hq
  exact_mod_cast this

/-- Every offset computed from the first accepted frame is within 1909 ns of
the exact one, for timestamps in the range of a capture file. -/
theorem epoch_offsets_accuracy (fs : List Frame) (hr : ∀ f ∈ fs, timeval_in_range f.ts) :
    List.Forall₂ (fun x y : Nat => |(x : Int) - (y : Int)| ≤ 1909)
      (epoch_offsets fs) (spec_relative_offsets fs) := by
  unfold epoch_offsets spec_relative_offsets
  cases hl : fs.filter (fun f => decide (spec_accepts f)) with
  | nil => exact List.Forall₂.nil
  | cons f0 rest =>
    simp only
    rw [List.forall₂_map_left_iff, List.forall₂_map_right_iff, List.forall₂_same]
    have hmem : ∀ f ∈ f0 :: rest, f ∈ fs := by
      intro f hf
      rw [← hl] at hf
      exact (List.mem_filter.mp hf).1
    intro f hf
    exact rel_ns_accuracy f.ts f0.ts (hr f (hmem f hf)) (hr f0 (hmem f0 (List.mem_cons_self _ _)))

/-- C2 (as amended). Relative offsets: for a capture whose timestamps are
those of a microsecond capture file (32-bit seconds, microseconds below one
million) and whose first frame to pass the header checks carries a payload,
the cast of line 259 is defined for every frame measured against the first
accepted one, and the `rel_ns` of the packets of the loaded trace are, in
order, those of the accepted frames computed in binary64 from the first
accepted frame: the integer part of
`1e9 * max(0, abs_ts(frame) - abs_ts(first))` with
`abs_ts = tv_sec + tv_usec * 1e-6`; the first packet of a non-empty trace has
`rel_ns = 0`; a frame whose `abs_ts` is not later than the epoch gets 0; and
every `rel_ns` is within 1909 ns of the exact difference of the capture
timestamps, clamped at zero. -/
theorem loader_relative_offsets (fs : List Frame)
    (hr : ∀ f ∈ fs, timeval_in_range f.ts)
    (hfirst : ∀ f, fs.find? (fun f => decide (headers_ok f)) = some f → spec_accepts f) :
    (∀ f0 f : Frame, f0 ∈ fs → f ∈ fs →
      F64.cast_defined (scaled_delta (abs_ts f.ts) (abs_ts f0.ts))) ∧
    (load_trace fs).map (fun p => p.rel_ns) = epoch_offsets fs ∧
    (∀ p, (load_trace fs).head? = some p → p.rel_ns = 0) ∧
    (∀ f0 f : Frame, (fs.filter (fun f => decide (spec_accepts f))).head? = some f0 →
      (F64.sub (abs_ts f.ts) (abs_ts f0.ts)).m ≤ 0 → rel_ns_of (abs_ts f.ts) (abs_ts f0.ts) = 0) ∧
    List.Forall₂ (fun x y : Nat => |(x : Int) - (y : Int)| ≤ 1909)
      ((load_trace fs).map (fun p => p.rel_ns)) (spec_relative_offsets fs) := by
  have hts : ∀ f ∈ fs, 0 ≤ f.ts.tv_sec ∧ 0 ≤ f.ts.tv_usec :=
    fun f hf => ⟨(hr f hf).1, (hr f hf).2.2.1⟩
  have h1 : (load_trace fs).map (fun p => p.rel_ns) = epoch_offsets fs :=
    run_frames_epoch fs Loader.init rfl rfl hts hfirst
  refine ⟨?_, h1, ?_, ?_, ?_⟩
  · intro f0 f hf0 hf
    exact (rel_ns_of_spec f.ts f0.ts (hr f hf) (hr f0 hf0)).1
  · intro p hp
    apply epoch_offsets_head fs
    rw [← h1]
    cases hl : load_trace fs with
    | nil => rw [hl] at hp; simp at hp
    | cons q qs =>
      rw [hl] at hp
      simp only [List.head?_cons, Option.some.injEq] at hp
      simp [hp]
  · intro f0 f _ h
    exact rel_ns_of_nonpos _ _ h
  · rw [h1]
    exact epoch_offsets_accuracy fs hr

set_option maxRecDepth 100000 in
/-- Witness for C2 (as amended): UDP frames at 0 s, 5 ms and 1 ms load with
offsets 0, 5000000 and 1000000; the last one is 1 ms after the epoch and is
not clamped. -/
theorem loader_relative_offsets_witness :
    (load_trace early_capture).map (fun p => p.rel_ns) = epoch_offsets early_capture ∧
    epoch_offsets early_capture = [0, 5000000, 1000000] ∧
    List.Forall₂ (fun x y : Nat => |(x : Int) - (y : Int)| ≤ 1909)
      ((load_trace early_capture).map (fun p => p.rel_ns))
      (spec_relative_offsets early_capture) :=
  ⟨(loader_relative_offsets early_capture (by decide) (by decide)).2.1, by decide,
    (loader_relative_offsets early_capture (by decide) (by decide)).2.2.2.2⟩

set_option maxRecDepth 100000 in
/-- Counterexample for C2 as stated: frames at `t0`, `t0 + 5 ms`, `t0 + 1 ms`
with `t0 = 0` load with offsets 0, 5000000, 1000000, not 0, 5000000, 0; and
two frames 5 ms apart at 1700000000 s load with offsets 0 and 5000114, where
the exact difference of the capture timestamps is 5000000 ns. -/
theorem loader_relative_offsets_counterexample :
    (load_trace early_capture).map (fun p => p.rel_ns) = [0, 5000000, 1000000] ∧
    (load_trace early_capture).map (fun p => p.rel_ns) ≠ [0, 5000000, 0] ∧
    (load_trace late_capture).map (fun p => p.rel_ns) = [0, 5000114] ∧
    spec_relative_offsets late_capture = [0, 5000000] ∧
    (load_trace late_capture).map (fun p => p.rel_ns) ≠ spec_relative_offsets late_capture := by
  decide

set_option maxRecDepth 100000 in
/-- Outside the range of a capture file the cast of line 259 can be undefined:
for a frame 20000000000 s after the epoch the scaled difference is 2e19, which
does not fit in 64 bits. -/
theorem cast_undefined_far_apart :
    ¬ F64.cast_defined (scaled_delta (abs_ts ⟨20000000000, 0⟩) (abs_ts ⟨0, 0⟩)) ∧
    F64.int_part (scaled_delta (abs_ts ⟨20000000000, 0⟩) (abs_ts ⟨0, 0⟩)) =
      20000000000000000000 := by
  decide

set_option maxRecDepth 100000 in
/-- The epoch is taken from a frame that is not inserted: after a UDP frame
with an empty payload at 0 s, the only packet of the trace, captured at 1 s,
has `rel_ns = 1000000000`. -/
theorem epoch_from_empty_payload_frame :
    (load_trace empty_first_capture).map (fun p => p.rel_ns) = [1000000000] ∧
    spec_relative_offsets empty_first_capture = [0] := by
  decide

/-! ## The pacing primitive -/

theorem to_i64_small (n : Nat) (h : n < 2 ^ 63) : to_i64 n = (n : Int) := by
  unfold to_i64
  have h1 : n % 2 ^ 64 = n := Nat.mod_eq_of_lt (by omega)
  rw [h1, if_pos h]

theorem ns_to_timespec_eq (ns : Nat) (h : ns < 2 ^ 64) :
    ns_to_timespec ns = ⟨((ns / 1000000000 : Nat) : Int), ((ns % 1000000000 : Nat) : Int)⟩ := by
  unfold ns_to_timespec
  rw [to_i64_small _ (by omega), to_i64_small _ (by omega)]

theorem sub_u64_exact (a b : Nat) (h : b ≤ a) (ha : a < 2 ^ 64) : sub_u64 a b = a - b :=
  usub_exact a b h (by unfold U64_MOD; exact ha)

theorem sleep_until_succ (clock : Nat → Option timespec) (target_ns guard_ns fuel k : Nat)
    (now : timespec) (h : clock k = some now) :
    sleep_until clock target_ns guard_ns (fuel + 1) k =
      match sleep_until_step (timespec_to_ns now) target_ns guard_ns with
      | SleepStep.done => ([], SleepResult.returned (k + 1))
      | SleepStep.sleep req =>
        (Effect.clock_nanosleep req :: (sleep_until clock target_ns guard_ns fuel (k + 1)).1,
          (sleep_until clock target_ns guard_ns fuel (k + 1)).2) := by
  rw [sleep_until, h]

/-- C9. The pacing test of `sleep_until`: with `now_ns + guard_ns < 2^64`, a
pass through the loop returns without sleeping exactly when
`now_ns + guard_ns >= target_ns`; otherwise it asks for a relative sleep of
`r = target_ns - guard_ns - now_ns` nanoseconds, where `r > 0`, neither
subtraction wraps, and the request is `(r / 10^9, r mod 10^9)` with the second
part below `10^9`; after the sleep the clock is read again and the test
repeated; the replay engine passes `guard_ns = lead_ns / 2`. -/
theorem sleep_until_pacing (now_ns target_ns guard_ns : Nat)
    (h : now_ns + guard_ns < 2 ^ 64) (ht : target_ns < 2 ^ 64) :
    (sleep_until_step now_ns target_ns guard_ns = SleepStep.done ↔
      target_ns ≤ now_ns + guard_ns) ∧
    (now_ns + guard_ns < target_ns →
      0 < target_ns - guard_ns - now_ns ∧
      guard_ns ≤ target_ns ∧ now_ns ≤ target_ns - guard_ns ∧
      sub_u64 (sub_u64 target_ns guard_ns) now_ns = target_ns - guard_ns - now_ns ∧
      sleep_until_step now_ns target_ns guard_ns =
        SleepStep.sleep ⟨(((target_ns - guard_ns - now_ns) / 1000000000 : Nat) : Int),
          (((target_ns - guard_ns - now_ns) % 1000000000 : Nat) : Int)⟩ ∧
      (target_ns - guard_ns - now_ns) % 1000000000 < 1000000000) ∧
    (∀ (clock : Nat → Option timespec) (fuel k : Nat) (now : timespec),
      clock k = some now → timespec_to_ns now = now_ns →
      sleep_until clock target_ns guard_ns (fuel + 1) k =
        if target_ns ≤ now_ns + guard_ns then ([], SleepResult.returned (k + 1))
        else
          (Effect.clock_nanosleep (ns_to_timespec (target_ns - guard_ns - now_ns)) ::
              (sleep_until clock target_ns guard_ns fuel (k + 1)).1,
            (sleep_until clock target_ns guard_ns fuel (k + 1)).2)) ∧
    (∀ (env : Env) (cfg : config) (fuel : Nat) (packets : List replay_packet) (now : timespec),
      env.clock 0 = some now →
      replay env cfg fuel packets =
        replay_loop env ((timespec_to_ns now + cfg.lead_ns) % U64_MOD) (cfg.lead_ns / 2) fuel
          packets 1 0) := by
  have hmod : (now_ns + guard_ns) % U64_MOD = now_ns + guard_ns :=
    Nat.mod_eq_of_lt (by unfold U64_MOD; exact h)
  have hsub : now_ns + guard_ns < target_ns →
      sub_u64 (sub_u64 target_ns guard_ns) now_ns = target_ns - guard_ns - now_ns := by
    intro hlt
    rw [sub_u64_exact target_ns guard_ns (by omega) ht, sub_u64_exact _ _ (by omega) (by omega)]
  have hstep : now_ns + guard_ns < target_ns →
      sleep_until_step now_ns target_ns guard_ns =
        SleepStep.sleep (ns_to_timespec (target_ns - guard_ns - now_ns)) := by
    intro hlt
    unfold sleep_until_step
    rw [hmod, if_neg (by omega), hsub hlt]
  refine ⟨?_, ?_, ?_, ?_⟩
  · unfold sleep_until_step
    rw [hmod]
    by_cases hc : target_ns ≤ now_ns + guard_ns
    · simp [hc]
    · simp [hc]
  · intro hlt
    refine ⟨by omega, by omega, by omega, hsub hlt, ?_, Nat.mod_lt _ (by decide)⟩
    rw [hstep hlt, ns_to_timespec_eq _ (by omega)]
  · intro clock fuel k now hk hnow
    rw [sleep_until_succ _ _ _ _ _ _ hk, hnow]
    by_cases hc : target_ns ≤ now_ns + guard_ns
    · have hd : sleep_until_step now_ns target_ns guard_ns = SleepStep.done := by
        unfold sleep_until_step
        rw [hmod, if_pos hc]
      rw [hd, if_pos hc]
    · rw [hstep (by omega), if_neg hc]
  · intro env cfg fuel packets now h0
    unfold replay
    rw [h0]

/-- Witness for C9: 100 ns before a target with a guard of 40 ns, the request
is a sleep of 60 ns. -/
theorem sleep_until_pacing_witness :
    sleep_until_step 1000 1100 40 = SleepStep.sleep ⟨0, 60⟩ :=
  ((sleep_until_pacing 1000 1100 40 (by decide) (by decide)).2.1 (by decide)).2.2.2.2.1



/-! ## The replay loop -/

theorem sends_append (es1 es2 : List Effect) : sends (es1 ++ es2) = sends es1 ++ sends es2 := by
  induction es1 with
  | nil => rfl
  | cons e es ih => cases e <;> simp [sends, ih]

theorem sleep_until_sends (clock : Nat → Option timespec) (target_ns guard_ns fuel k : Nat) :
    sends (sleep_until clock target_ns guard_ns fuel k).1 = [] := by
  induction fuel generalizing k with
  | zero => rfl
  | succ fuel ih =>
    unfold sleep_until
    cases clock k with
    | none => rfl
    | some now =>
      simp only
      cases sleep_until_step (timespec_to_ns now) target_ns guard_ns with
      | done => rfl
      | sleep req => simp [sends, ih]

/-- Whatever the environment does, the sends issued so far are the first
sends the trace calls for. -/
theorem replay_loop_sends_initial (env : Env) (base_ns guard_ns fuel : Nat)
    (packets : List replay_packet) (k i : Nat) :
    sends (replay_loop env base_ns guard_ns fuel packets k i).effects <+:
      packets.map (fun p => (target_of base_ns p, p.payload)) := by
  induction packets generalizing k i with
  | nil => simp [replay_loop, sends]
  | cons p ps ih =>
    unfold replay_loop
    simp only
    have hs := sleep_until_sends env.clock (target_of base_ns p) guard_ns fuel k
    rcases hsl : sleep_until env.clock (target_of base_ns p) guard_ns fuel k with ⟨es, res⟩
    rw [hsl] at hs
    simp only at hs
    cases res with
    | pending => simp [hs]
    | exited => simp [hs]
    | returned k1 =>
      simp only
      by_cases hok : env.sendmsg_ok i = true
      · simp only [hok, if_true, sends_append, hs, List.nil_append, sends, List.map_cons]
        exact (List.prefix_cons_inj _).mpr (ih k1 (i + 1))
      · rw [if_neg hok]
        simp only [sends_append, hs, List.nil_append, sends, List.map_cons]
        exact (List.prefix_cons_inj _).mpr List.nil_prefix

/-- A wait comes to its end when the clock gets there: from some fuel on,
`sleep_until` returns, with the same effects whatever the fuel. -/
theorem sleep_until_returns (clock : Nat → Option timespec) (target_ns guard_ns : Nat)
    (hclock : ∀ k, clock k ≠ none) (d : Nat) :
    ∀ k, (∃ j now, k ≤ j ∧ j ≤ k + d ∧ clock j = some now ∧
        sleep_until_step (timespec_to_ns now) target_ns guard_ns = SleepStep.done) →
      ∃ es k1, ∀ fuel, d + 1 ≤ fuel →
        sleep_until clock target_ns guard_ns fuel k = (es, SleepResult.returned k1) := by
  induction d with
  | zero =>
    rintro k ⟨j, now, hkj, hjk, hj, hdone⟩
    have hjk' : j = k := by omega
    subst hjk'
    refine ⟨[], j + 1, ?_⟩
    intro fuel hfuel
    obtain ⟨f, rfl⟩ : ∃ f, fuel = f + 1 := ⟨fuel - 1, by omega⟩
    rw [sleep_until_succ _ _ _ _ _ _ hj, hdone]
  | succ d ih =>
    rintro k ⟨j, now, hkj, hjk, hj, hdone⟩
    obtain ⟨nowk, hk⟩ := Option.ne_none_iff_exists'.mp (hclock k)
    cases hstep : sleep_until_step (timespec_to_ns nowk) target_ns guard_ns with
    | done =>
      refine ⟨[], k + 1, ?_⟩
      intro fuel hfuel
      obtain ⟨f, rfl⟩ : ∃ f, fuel = f + 1 := ⟨fuel - 1, by omega⟩
      rw [sleep_until_succ _ _ _ _ _ _ hk, hstep]
    | sleep req =>
      have hne : j ≠ k := by
        rintro rfl
        rw [hk] at hj
        cases hj
        rw [hstep] at hdone
        cases hdone
      obtain ⟨es, k1, hes⟩ := ih (k + 1) ⟨j, now, by omega, by omega, hj, hdone⟩
      refine ⟨Effect.clock_nanosleep req :: es, k1, ?_⟩
      intro fuel hfuel
      obtain ⟨f, rfl⟩ : ∃ f, fuel = f + 1 := ⟨fuel - 1, by omega⟩
      rw [sleep_until_succ _ _ _ _ _ _ hk, hstep]
      simp only
      rw [hes f (by omega)]

/-- In a cooperative environment the loop runs to its end with enough fuel:
it issues exactly the sends the trace calls for and exits with status 0. -/
theorem replay_loop_completes (env : Env) (base_ns guard_ns : Nat)
    (hclock : ∀ k, env.clock k ≠ none) (hsend : ∀ i, env.sendmsg_ok i = true)
    (packets : List replay_packet)
    (hwait : ∀ p ∈ packets, ∀ k, ∃ j now, k ≤ j ∧ env.clock j = some now ∧
      sleep_until_step (timespec_to_ns now) (target_of base_ns p) guard_ns = SleepStep.done) :
    ∀ k i, ∃ F, ∀ fuel, F ≤ fuel →
      sends (replay_loop env base_ns guard_ns fuel packets k i).effects =
        packets.map (fun p => (target_of base_ns p, p.payload)) ∧
      (replay_loop env base_ns guard_ns fuel packets k i).status = some EXIT_SUCCESS := by
  induction packets with
  | nil =>
    intro k i
    exact ⟨0, fun fuel _ => by simp [replay_loop, sends]⟩
  | cons p ps ih =>
    intro k i
    obtain ⟨j, now, hkj, hj, hdone⟩ := hwait p (List.mem_cons_self _ _) k
    obtain ⟨es, k1, hes⟩ := sleep_until_returns env.clock (target_of base_ns p) guard_ns hclock
      (j - k) k ⟨j, now, hkj, by omega, hj, hdone⟩
    obtain ⟨F2, hF2⟩ := ih (fun q hq => hwait q (List.mem_cons_of_mem _ hq)) k1 (i + 1)
    refine ⟨max (j - k + 1) F2, ?_⟩
    intro fuel hfuel
    have h1 := hes fuel (by omega)
    have h2 := hF2 fuel (by omega)
    have hs := sleep_until_sends env.clock (target_of base_ns p) guard_ns fuel k
    rw [h1] at hs
    simp only at hs
    unfold replay_loop
    simp only [h1, hsend i, if_true, sends_append, hs, List.nil_append, sends, List.map_cons]
    exact ⟨by rw [h2.1], h2.2⟩

theorem target_of_base (T0 lead_ns : Nat) (p : replay_packet) :
    target_of ((T0 + lead_ns) % U64_MOD) p = (T0 + lead_ns + p.rel_ns) % U64_MOD := by
  unfold target_of
  rw [Nat.mod_add_mod]

theorem replay_sends_effects (env : Env) (cfg : config) (fuel : Nat)
    (packets : List replay_packet) (now0 : timespec) (h0 : env.clock 0 = some now0) :
    replay env cfg fuel packets =
      replay_loop env ((timespec_to_ns now0 + cfg.lead_ns) % U64_MOD) (cfg.lead_ns / 2) fuel
        packets 1 0 := by
  unfold replay
  rw [h0]

theorem expected_sends_eq (T0 lead_ns : Nat) (packets : List replay_packet) :
    packets.map (fun p => (target_of ((T0 + lead_ns) % U64_MOD) p, p.payload)) =
      expected_sends T0 lead_ns packets := by
  unfold expected_sends
  apply List.map_congr_left
  intro p _
  rw [target_of_base]

theorem replay_sends_initial (env : Env) (cfg : config) (fuel : Nat)
    (packets : List replay_packet) (now0 : timespec) (h0 : env.clock 0 = some now0) :
    sends (replay env cfg fuel packets).effects <+:
      expected_sends (timespec_to_ns now0) cfg.lead_ns packets := by
  rw [replay_sends_effects env cfg fuel packets now0 h0, ← expected_sends_eq]
  exact replay_loop_sends_initial _ _ _ _ _ _ _

/-- The sends of a whole run of `main` are those of the replay of the loaded
trace; a run that ends before the replay issues none. -/
theorem main_sends_initial (env : Env) (cfg : config) (fuel : Nat) (results : List pcap_next)
    (st : Loader) (now0 : timespec) (h0 : env.clock 0 = some now0)
    (h : env.pcap = some results) (hl : load_loop results Loader.init = some st) :
    sends (main env cfg fuel).effects <+:
      expected_sends (timespec_to_ns now0) cfg.lead_ns st.packets := by
  unfold main
  rw [h]
  simp only [hl]
  split_ifs with hc
  · simp [sends]
  · unfold open_and_replay
    split_ifs
    · simp [sends]
    · simp [sends]
    · simp [sends]
    · simp [sends]
    · simp [sends]
    · simp only [sends_append, sends, List.nil_append]
      exact replay_sends_initial env cfg fuel st.packets now0 h0

/-- C4. Target-time computation: with `T0` the clock value read before the
loop, the sends a run issues are, in order, the first sends of the list
`(T0 + lead_ns + rel_ns(i)) mod 2^64` with the payload of packet `i`, whatever
the later clock reads return (for the replay part and for a whole run of
`main` on the loaded trace); and in an environment where no clock read and no
send fails and the clock reaches every target, a run with enough fuel issues
exactly one send per packet, in trace order, with these transmit times, and
exits with status 0. -/
theorem replay_target_times (env : Env) (cfg : config) (packets : List replay_packet)
    (now0 : timespec) (h0 : env.clock 0 = some now0) :
    (∀ fuel, sends (replay env cfg fuel packets).effects <+:
      expected_sends (timespec_to_ns now0) cfg.lead_ns packets) ∧
    (∀ fuel results st, env.pcap = some results → load_loop results Loader.init = some st →
      sends (main env cfg fuel).effects <+:
        expected_sends (timespec_to_ns now0) cfg.lead_ns st.packets) ∧
    (env.cooperative ((timespec_to_ns now0 + cfg.lead_ns) % U64_MOD) (cfg.lead_ns / 2) packets →
      ∃ F, ∀ fuel, F ≤ fuel →
        sends (replay env cfg fuel packets).effects =
          expected_sends (timespec_to_ns now0) cfg.lead_ns packets ∧
        (sends (replay env cfg fuel packets).effects).length = packets.length ∧
        (replay env cfg fuel packets).status = some 0) := by
  refine ⟨fun fuel => replay_sends_initial env cfg fuel packets now0 h0, ?_, ?_⟩
  · intro fuel results st h hl
    exact main_sends_initial env cfg fuel results st now0 h0 h hl
  · rintro ⟨hclock, hsend, hwait⟩
    obtain ⟨F, hF⟩ := replay_loop_completes env _ _ hclock hsend packets hwait 1 0
    refine ⟨F, fun fuel hfuel => ?_⟩
    have h := hF fuel hfuel
    rw [replay_sends_effects env cfg fuel packets now0 h0, ← expected_sends_eq]
    exact ⟨h.1, by rw [h.1, List.length_map], h.2⟩

theorem sample_env_cooperative (frames : List Frame) :
    (sample_env frames).cooperative ((timespec_to_ns ⟨5, 0⟩ + 200000) % U64_MOD) (200000 / 2)
      sample_trace := by
  refine ⟨fun k => by simp [sample_env], fun i => rfl, ?_⟩
  have hall : ∀ p ∈ sample_trace,
      sleep_until_step (timespec_to_ns ⟨6, 0⟩)
        (target_of ((timespec_to_ns ⟨5, 0⟩ + 200000) % U64_MOD) p) (200000 / 2) =
          SleepStep.done := by
    decide
  intro p hp k
  refine ⟨k + 2, ⟨6, 0⟩, by omega, by simp [sample_env], hall p hp⟩

/-- Witness for C4: offsets 0, 10 ms, 25 ms with `lead_ns = 200000` and a base
clock read of 5 s give the transmit times 5000200000, 5010200000 and
5025200000, one send per packet; the first wait sleeps once. -/
theorem replay_target_times_witness :
    (sends (replay (sample_env []) ⟨200000⟩ 2 sample_trace).effects <+:
      expected_sends 5000000000 200000 sample_trace) ∧
    (∃ F, ∀ fuel, F ≤ fuel →
      sends (replay (sample_env []) ⟨200000⟩ fuel sample_trace).effects =
          expected_sends 5000000000 200000 sample_trace ∧
        (sends (replay (sample_env []) ⟨200000⟩ fuel sample_trace).effects).length =
          sample_trace.length ∧
        (replay (sample_env []) ⟨200000⟩ fuel sample_trace).status = some 0) ∧
    expected_sends 5000000000 200000 sample_trace =
      [(5000200000, [1]), (5010200000, [2]), (5025200000, [3])] ∧
    replay (sample_env []) ⟨200000⟩ 2 sample_trace =
      ⟨[Effect.clock_nanosleep ⟨0, 100000⟩, Effect.sendmsg 5000200000 [1],
        Effect.sendmsg 5010200000 [2], Effect.sendmsg 5025200000 [3], Effect.close], some 0⟩ :=
  ⟨(replay_target_times (sample_env []) ⟨200000⟩ sample_trace ⟨5, 0⟩ rfl).1 2,
    (replay_target_times (sample_env []) ⟨200000⟩ sample_trace ⟨5, 0⟩ rfl).2.2
      (sample_env_cooperative []),
    by decide, by decide⟩

/-! ## Empty traces -/

theorem run_frames_packets_nil (fs : List Frame) (st : Loader) :
    (run_frames st fs).packets = [] ↔ st.packets = [] ∧ ∀ f ∈ fs, ¬ spec_accepts f := by
  have h := run_frames_len_payload fs st
  constructor
  · intro hnil
    rw [hnil] at h
    simp only [List.map_nil] at h
    have h2 := List.append_eq_nil.mp h.symm
    refine ⟨List.map_eq_nil_iff.mp h2.1, ?_⟩
    intro f hf hacc
    have h3 := List.map_eq_nil_iff.mp h2.2
    have : f ∈ fs.filter (fun f => decide (spec_accepts f)) :=
      List.mem_filter.mpr ⟨hf, by simpa using hacc⟩
    rw [h3] at this
    simp at this
  · rintro ⟨hst, hno⟩
    have hf : fs.filter (fun f => decide (spec_accepts f)) = [] := by
      rw [List.filter_eq_nil_iff]
      intro f hf
      simpa using hno f hf
    rw [hst, hf] at h
    simpa using h

/-- C5. Empty-trace rejection: when the capture file opens and no frame of it
passes the acceptance checks, the run ends with status 1 without any effect (no
socket call, no send), whether the file is read to its end or a read error
stops the load; the same holds whenever the load ends with no packet in the
trace; when the load ends with at least one packet (which is the case when some
frame passes the checks and no read error occurs), the first thing the run
does is to call `socket`. -/
theorem empty_trace_rejection (env : Env) (cfg : config) (fuel : Nat)
    (results : List pcap_next) (h : env.pcap = some results) :
    ((∀ f, pcap_next.packet f ∈ results → ¬ spec_accepts f) →
      main env cfg fuel = ⟨[], some 1⟩) ∧
    (∀ st, load_loop results Loader.init = some st → st.packets = [] →
      main env cfg fuel = ⟨[], some 1⟩) ∧
    (∀ st, load_loop results Loader.init = some st → st.packets ≠ [] →
      ∃ es, (main env cfg fuel).effects = Effect.socket :: es) ∧
    ((∃ f, pcap_next.packet f ∈ results ∧ spec_accepts f) → pcap_next.error ∉ results →
      ∃ es, (main env cfg fuel).effects = Effect.socket :: es) := by
  have hempty : ∀ st, load_loop results Loader.init = some st → st.packets = [] →
      main env cfg fuel = ⟨[], some 1⟩ := by
    intro st hl hp
    unfold main
    rw [h]
    simp only [hl, hp, List.length_nil, if_true, EXIT_FAILURE]
  have hsock : ∀ st, load_loop results Loader.init = some st → st.packets ≠ [] →
      ∃ es, (main env cfg fuel).effects = Effect.socket :: es := by
    intro st hl hp
    unfold main
    rw [h]
    simp only [hl]
    rw [if_neg (by simpa using hp)]
    unfold open_and_replay
    split_ifs <;> exact ⟨_, rfl⟩
  refine ⟨?_, hempty, hsock, ?_⟩
  · intro hno
    by_cases herr : pcap_next.error ∈ results
    · unfold main
      rw [h]
      simp only [load_loop_eq, herr, if_true, EXIT_FAILURE]
    · apply hempty (run_frames Loader.init (frames_of results))
      · rw [load_loop_eq, if_neg herr]
      · rw [run_frames_packets_nil]
        exact ⟨rfl, fun f hf => hno f ((mem_frames_of f results).mp hf)⟩
  · rintro ⟨f, hf, hacc⟩ herr
    apply hsock (run_frames Loader.init (frames_of results))
    · rw [load_loop_eq, if_neg herr]
    · intro hnil
      rw [run_frames_packets_nil] at hnil
      exact hnil.2 f ((mem_frames_of f results).mpr hf) hacc

set_option maxRecDepth 100000 in
/-- Witness for C5: a capture holding only a non-IPv4 frame and a TCP frame
ends the run with status 1 and no effect. -/
theorem empty_trace_rejection_witness :
    main (sample_env [sample_frame ⟨100, 0⟩ 0x86DD 17 [1], sample_frame ⟨100, 1⟩ 0x0800 6 [2]])
      ⟨200000⟩ 2 = ⟨[], some 1⟩ :=
  (empty_trace_rejection
    (sample_env [sample_frame ⟨100, 0⟩ 0x86DD 17 [1], sample_frame ⟨100, 1⟩ 0x0800 6 [2]])
    ⟨200000⟩ 2 _ rfl).1 (by
      intro f hf
      simp only [List.map_cons, List.map_nil, List.mem_cons, pcap_next.packet.injEq,
        List.not_mem_nil, or_false] at hf
      rcases hf with rfl | rfl <;> decide)

end UdpTxtimeReplay

/-! ## The receive engine -/

namespace UdpRxTimestamp

theorem rows_append (es1 es2 : List Effect) : rows (es1 ++ es2) = rows es1 ++ rows es2 := by
  induction es1 with
  | nil => rfl
  | cons e es ih => cases e <;> simp [rows, ih]

theorem recv_loop_nil (N seq : Nat) :
    recv_loop N [] seq =
      if N = 0 ∨ seq < N then ⟨[Effect.recvmsg], none⟩ else ⟨[Effect.close], some EXIT_SUCCESS⟩ := by
  rw [recv_loop]

theorem recv_loop_stop (N seq : Nat) (outs : List RecvOutcome) (h : ¬ (N = 0 ∨ seq < N)) :
    recv_loop N outs seq = ⟨[Effect.close], some EXIT_SUCCESS⟩ := by
  cases outs with
  | nil => rw [recv_loop, if_neg h]
  | cons o rest => cases o <;> rw [recv_loop, if_neg h]

theorem recv_loop_eintr (N seq : Nat) (rest : List RecvOutcome) (h : N = 0 ∨ seq < N) :
    recv_loop N (RecvOutcome.eintr :: rest) seq =
      ⟨Effect.recvmsg :: (recv_loop N rest seq).effects, (recv_loop N rest seq).status⟩ := by
  rw [recv_loop, if_pos h]

theorem recv_loop_fail (N seq : Nat) (rest : List RecvOutcome) (h : N = 0 ∨ seq < N) :
    recv_loop N (RecvOutcome.fail :: rest) seq =
      ⟨[Effect.recvmsg, Effect.close], some EXIT_FAILURE⟩ := by
  rw [recv_loop, if_pos h]

theorem recv_loop_ok (N seq n : Nat) (control : List cmsghdr) (mono_now : timespec)
    (rest : List RecvOutcome) (h : N = 0 ∨ seq < N) :
    recv_loop N (RecvOutcome.ok n control mono_now :: rest) seq =
      ⟨Effect.recvmsg :: Effect.row (make_row seq n control mono_now) ::
          (recv_loop N rest ((seq + 1) % U64_MOD)).effects,
        (recv_loop N rest ((seq + 1) % U64_MOD)).status⟩ := by
  rw [recv_loop, if_pos h]

theorem make_row_seq (seq n : Nat) (control : List cmsghdr) (mono_now : timespec) :
    (make_row seq n control mono_now).seq = seq := rfl

/-- From `seq` on, with enough successful receives ahead and no fatal
failure, the loop prints the rows `seq, seq + 1, ..., N - 1` and stops with
status 0. -/
theorem recv_loop_budget (N : Nat) (hN : 0 < N) (hN64 : N < 2 ^ 64)
    (outs : List RecvOutcome) (seq : Nat) (hseq : seq ≤ N)
    (hfail : ∀ o ∈ outs, o ≠ RecvOutcome.fail) (hsucc : N - seq ≤ successes outs) :
    (rows (recv_loop N outs seq).effects).map (fun r => r.seq) = List.range' seq (N - seq) ∧
    (recv_loop N outs seq).status = some 0 := by
  induction outs generalizing seq with
  | nil =>
    have h : seq = N := by simp only [successes] at hsucc; omega
    subst h
    rw [recv_loop_stop _ _ _ (by omega)]
    simp [rows, EXIT_SUCCESS]
  | cons o rest ih =>
    by_cases hlt : seq < N
    swap
    · have h : seq = N := by omega
      subst h
      rw [recv_loop_stop _ _ _ (by omega)]
      simp [rows, EXIT_SUCCESS]
    have hrest : ∀ o ∈ rest, o ≠ RecvOutcome.fail := fun o ho => hfail o (List.mem_cons_of_mem _ ho)
    cases o with
    | eintr =>
      rw [recv_loop_eintr _ _ _ (Or.inr hlt)]
      simp only [rows]
      exact ih seq hseq hrest (by simpa [successes] using hsucc)
    | fail => exact absurd rfl (hfail _ (List.mem_cons_self _ _))
    | ok n control mono_now =>
      rw [recv_loop_ok _ _ _ _ _ _ (Or.inr hlt)]
      have hmod : (seq + 1) % U64_MOD = seq + 1 :=
        Nat.mod_eq_of_lt (by unfold U64_MOD; omega)
      rw [hmod]
      have h := ih (seq + 1) (by omega) hrest (by simp only [successes] at hsucc; omega)
      simp only [rows, List.map_cons, make_row_seq]
      rw [h.1, show N - seq = (N - (seq + 1)) + 1 by omega, List.range'_succ]
      exact ⟨rfl, h.2⟩

/-- With `max_samples = 0` the loop goes on as long as receives do not fail
fatally: it prints one row per successful receive and ends up blocked in
`recvmsg`. -/
theorem recv_loop_unbounded (outs : List RecvOutcome) (seq : Nat)
    (hfail : ∀ o ∈ outs, o ≠ RecvOutcome.fail) :
    (recv_loop 0 outs seq).status = none ∧
    (rows (recv_loop 0 outs seq).effects).length = successes outs := by
  induction outs generalizing seq with
  | nil => simp [recv_loop_nil, rows, successes]
  | cons o rest ih =>
    have hrest : ∀ o ∈ rest, o ≠ RecvOutcome.fail := fun o ho => hfail o (List.mem_cons_of_mem _ ho)
    cases o with
    | eintr =>
      rw [recv_loop_eintr _ _ _ (Or.inl rfl)]
      simp only [rows, successes]
      exact ih seq hrest
    | fail => exact absurd rfl (hfail _ (List.mem_cons_self _ _))
    | ok n control mono_now =>
      rw [recv_loop_ok _ _ _ _ _ _ (Or.inl rfl)]
      have h := ih ((seq + 1) % U64_MOD) hrest
      simp only [rows, successes, List.length_cons]
      exact ⟨h.1, by rw [h.2]⟩

theorem rows_main (env : Env) (N : Nat) (h1 : env.socket_ok = true)
    (h2 : env.timestamping_ok = true) (h3 : env.bind_ip_ok = true) (h4 : env.bind_ok = true) :
    rows (main env N).effects = rows (recv_loop N env.recv 0).effects ∧
    (main env N).status = (recv_loop N env.recv 0).status := by
  unfold main
  simp [h1, h2, h3, h4, rows_append, rows]

/-- C6. RX sequence and budget: for `max_samples = N > 0` and outcomes with no
fatal failure and at least `N` successes, the loop prints exactly `N` rows,
with `seq` equal to 0, 1, ..., N-1 in order, and exits with status 0; an
interrupted receive prints no row and leaves `seq` as it is; with
`max_samples = 0` the loop does not stop by itself: after any outcomes without
a fatal failure it has printed one row per success and waits in `recvmsg`; a
run of `main` whose four checked setup steps succeed prints the rows of the
loop and ends as the loop does. -/
theorem rx_sequence_and_budget (N : Nat) (outs : List RecvOutcome)
    (hN : 0 < N) (hN64 : N < 2 ^ 64)
    (hfail : ∀ o ∈ outs, o ≠ RecvOutcome.fail) (hsucc : N ≤ successes outs) :
    (rows (recv_loop N outs 0).effects).map (fun r => r.seq) = List.range N ∧
    (rows (recv_loop N outs 0).effects).length = N ∧
    (recv_loop N outs 0).status = some 0 ∧
    (∀ (M seq : Nat) (rest : List RecvOutcome), M = 0 ∨ seq < M →
      rows (recv_loop M (RecvOutcome.eintr :: rest) seq).effects =
          rows (recv_loop M rest seq).effects ∧
        (recv_loop M (RecvOutcome.eintr :: rest) seq).status = (recv_loop M rest seq).status) ∧
    (∀ (outs0 : List RecvOutcome) (seq : Nat), (∀ o ∈ outs0, o ≠ RecvOutcome.fail) →
      (recv_loop 0 outs0 seq).status = none ∧
        (rows (recv_loop 0 outs0 seq).effects).length = successes outs0) ∧
    (∀ env : Env, env.socket_ok = true → env.timestamping_ok = true → env.bind_ip_ok = true →
      env.bind_ok = true → env.recv = outs →
      (rows (main env N).effects).map (fun r => r.seq) = List.range N ∧
        (main env N).status = some 0) := by
  have h := recv_loop_budget N hN hN64 outs 0 (by omega) hfail (by omega)
  have h1 : (rows (recv_loop N outs 0).effects).map (fun r => r.seq) = List.range N := by
    rw [h.1, List.range_eq_range']
    rfl
  refine ⟨h1, ?_, h.2, ?_, recv_loop_unbounded, ?_⟩
  · have := congrArg List.length h1
    simpa using this
  · intro M seq rest hc
    rw [recv_loop_eintr _ _ _ hc]
    simp [rows]
  · intro env e1 e2 e3 e4 hrecv
    have hm := rows_main env N e1 e2 e3 e4
    rw [hm.1, hm.2, hrecv]
    exact ⟨h1, h.2⟩

/-- Witness for C6: with `max_samples = 5`, seven receives of which one is
interrupted give the five rows with `seq` 0..4 and status 0. -/
theorem rx_sequence_and_budget_witness :
    (rows (recv_loop 5
      [RecvOutcome.ok 10 [] ⟨1, 0⟩, RecvOutcome.eintr, RecvOutcome.ok 11 [] ⟨2, 0⟩,
        RecvOutcome.ok 12 [] ⟨3, 0⟩, RecvOutcome.ok 13 [] ⟨4, 0⟩, RecvOutcome.ok 14 [] ⟨5, 0⟩,
        RecvOutcome.ok 15 [] ⟨6, 0⟩] 0).effects).map (fun r => r.seq) = [0, 1, 2, 3, 4] :=
  (rx_sequence_and_budget 5 _ (by decide) (by decide) (by decide) (by decide)).1



/-! ## Timestamp decoding -/

theorem scan_cmsgs_eq (control : List cmsghdr) :
    scan_cmsgs control =
      match control.find? is_timestamping with
      | some cm => cm.data
      | none => stamp_zero := by
  induction control with
  | nil => rfl
  | cons cm rest ih =>
    by_cases h : is_timestamping cm = true
    · simp [scan_cmsgs, List.find?, h]
    · simp only [scan_cmsgs, List.find?, h]
      simpa using ih

theorem to_u64_of_range (x : Int) (h0 : 0 ≤ x) (h1 : x < 2 ^ 64) : (to_u64 x : Int) = x := by
  unfold to_u64
  rw [Int.emod_eq_of_lt h0 h1]
  exact Int.toNat_of_nonneg h0

theorem to_u64_cast (x : Int) : (to_u64 x : Int) = x % 2 ^ 64 := by
  unfold to_u64
  exact Int.toNat_of_nonneg (Int.emod_nonneg _ (by norm_num))

theorem ts_to_ns_mod (ts : timespec) :
    (ts_to_ns ts : Int) = (ts.tv_sec * 1000000000 + ts.tv_nsec) % 2 ^ 64 := by
  unfold ts_to_ns U64_MOD
  push_cast
  rw [to_u64_cast, to_u64_cast]
  omega

theorem ts_to_ns_exact (ts : timespec) (h0 : 0 ≤ ts.tv_sec) (h1 : 0 ≤ ts.tv_nsec)
    (h2 : ts.tv_sec * 1000000000 + ts.tv_nsec < 2 ^ 64) :
    (ts_to_ns ts : Int) = ts.tv_sec * 1000000000 + ts.tv_nsec := by
  rw [ts_to_ns_mod]
  exact Int.emod_eq_of_lt (by positivity) h2

/-- C7. RX timestamp decoding: the `realtime_ns` of the row printed for a
successful receive is `ts_to_ns` of the third time value of the first
ancillary message with level `SOL_SOCKET`, type `SO_TIMESTAMPING` and
`cmsg_len >= CMSG_LEN(sizeof(stamp))`, and 0 if there is none (absent or too
short); `ts_to_ns` is `tv_sec * 1000000000 + tv_nsec` as a `uint64_t`, which is
that number itself for every non-negative time value below `2^64` ns; the row
is printed and `seq` incremented whatever the ancillary data. -/
theorem rx_timestamp_decoding (seq n : Nat) (control : List cmsghdr) (mono_now : timespec) :
    (make_row seq n control mono_now).realtime_ns =
      (match control.find? is_timestamping with
        | some cm => ts_to_ns cm.data.ts2
        | none => 0) ∧
    (∀ cm : cmsghdr, is_timestamping cm = true ↔
      (cm.cmsg_level = SOL_SOCKET ∧ cm.cmsg_type = SO_TIMESTAMPING ∧
        CMSG_LEN sizeof_stamp ≤ cm.cmsg_len)) ∧
    (∀ ts : timespec, (ts_to_ns ts : Int) = (ts.tv_sec * 1000000000 + ts.tv_nsec) % 2 ^ 64) ∧
    (∀ ts : timespec, 0 ≤ ts.tv_sec → 0 ≤ ts.tv_nsec →
      ts.tv_sec * 1000000000 + ts.tv_nsec < 2 ^ 64 →
      (ts_to_ns ts : Int) = ts.tv_sec * 1000000000 + ts.tv_nsec) ∧
    (∀ (N : Nat) (rest : List RecvOutcome), N = 0 ∨ seq < N →
      recv_loop N (RecvOutcome.ok n control mono_now :: rest) seq =
        ⟨Effect.recvmsg :: Effect.row (make_row seq n control mono_now) ::
            (recv_loop N rest ((seq + 1) % U64_MOD)).effects,
          (recv_loop N rest ((seq + 1) % U64_MOD)).status⟩) ∧
    (make_row seq n control mono_now).seq = seq := by
  refine ⟨?_, ?_, ts_to_ns_mod, ts_to_ns_exact, ?_, rfl⟩
  · unfold make_row
    simp only
    rw [scan_cmsgs_eq]
    cases control.find? is_timestamping with
    | none => rfl
    | some cm => rfl
  · intro cm
    simp [is_timestamping, and_assoc]
  · intro N rest h
    exact recv_loop_ok _ _ _ _ _ _ h

/-- Witness for C7: of four ancillary messages (wrong type; right type but
too short; right type and long enough with third time value 7 s 5 ns; one more
of the right type and length) the third is decoded: the row carries 7000000005. -/
theorem rx_timestamp_decoding_witness :
    (make_row 0 10
      [⟨64, 1, 29, ⟨⟨1, 0⟩, ⟨0, 0⟩, ⟨2, 0⟩⟩⟩, ⟨63, 1, 37, ⟨⟨3, 0⟩, ⟨0, 0⟩, ⟨4, 0⟩⟩⟩,
        ⟨64, 1, 37, ⟨⟨6, 1⟩, ⟨0, 0⟩, ⟨7, 5⟩⟩⟩, ⟨64, 1, 37, ⟨⟨8, 0⟩, ⟨0, 0⟩, ⟨9, 0⟩⟩⟩]
      ⟨1, 0⟩).realtime_ns = 7000000005 :=
  (rx_timestamp_decoding 0 10 _ ⟨1, 0⟩).1

/-! ## Setup of the receive engine -/

/-- The four checked setup steps are fatal: a failure of `socket`, of
`setsockopt(SO_TIMESTAMPING)`, of the address conversion or of `bind` ends the
run with status 1 before the header is printed or a receive attempted. -/
theorem rx_checked_setup_failures_fatal (env : Env) (N : Nat)
    (h : env.socket_ok = false ∨ env.timestamping_ok = false ∨ env.bind_ip_ok = false ∨
      env.bind_ok = false) :
    (main env N).status = some 1 ∧ ∀ e ∈ (main env N).effects, in_receive_phase e = false := by
  unfold main
  by_cases h1 : env.socket_ok = true
  swap
  · simp [h1, in_receive_phase, EXIT_FAILURE]
  by_cases h2 : env.timestamping_ok = true
  swap
  · simp [h1, h2, in_receive_phase, EXIT_FAILURE]
  by_cases h3 : env.bind_ip_ok = true
  swap
  · simp [h1, h2, h3, in_receive_phase, EXIT_FAILURE]
  by_cases h4 : env.bind_ok = true
  swap
  · simp [h1, h2, h3, h4, in_receive_phase, EXIT_FAILURE]
  simp [h1, h2, h3, h4] at h

/-- The result of `setsockopt(SO_REUSEADDR)` has no influence on a run. -/
theorem rx_main_ignores_reuseaddr (env : Env) (b : Bool) (N : Nat) :
    main { env with reuseaddr_ok := b } N = main env N := rfl

/-- C8. RX setup failures: a failure of `setsockopt(SO_REUSEADDR)` is not
fatal in the code.  In an environment where only that call fails, the header
is printed and the receive loop entered: one datagram is received, its row is
printed, and the run ends with status 0. -/
theorem rx_reuseaddr_failure_enters_loop :
    reuseaddr_fails.reuseaddr_ok = false ∧
    main reuseaddr_fails 1 =
      ⟨[Effect.socket, Effect.setsockopt_timestamping, Effect.setsockopt_reuseaddr, Effect.bind,
        Effect.header, Effect.recvmsg, Effect.row ⟨0, 52, 10, 0, 1000000000⟩, Effect.close],
        some 0⟩ := by
  decide

end UdpRxTimestamp
